import Mathlib

/-!
# MCP4725 12-bit DAC driver: shallow embedding and verified wire-format properties

The driver of `MCP4725.h` / `MCP4725.cpp` is embedded as pure functions that pass the
driver object (with its bus handle) explicitly.

* `char` is the unsigned 8-bit type of the ARM targets the driver is built for: a byte
  is a natural number below 256, and a store into a `char` reduces modulo 256.
* `unsigned short` is 16 bits: a store into one reduces modulo 65536.
* `float` arithmetic is taken over the rationals (exact arithmetic).
* The bus records every transaction in a log; the device's answers to successive
  5-byte reads are an arbitrary sequence `rx 0, rx 1, ...`.
* The two `do ... while` busy-wait loops carry a fuel argument; `none` means the loop
  did not finish within the fuel.
-/

/-! ## The bus transport -/

/-- The five bytes a 5-byte read stores into `char buff[5]`. -/
structure Buf5 where
  b0 : Nat
  b1 : Nat
  b2 : Nat
  b3 : Nat
  b4 : Nat
  deriving DecidableEq, Repr

namespace Buf5

/-- The bytes of the buffer in index order. -/
def toList (b : Buf5) : List Nat := [b.b0, b.b1, b.b2, b.b3, b.b4]

/-- Every element is a value of an unsigned 8-bit `char`. -/
def IsBytes (b : Buf5) : Prop :=
  b.b0 < 256 ∧ b.b1 < 256 ∧ b.b2 < 256 ∧ b.b3 < 256 ∧ b.b4 < 256

instance (b : Buf5) : Decidable b.IsBytes := by
  unfold IsBytes
  exact inferInstance

end Buf5

/-- One completed transaction on the bus: the 8-bit address and the bytes moved. -/
inductive Txn where
  | write (address : Nat) (data : List Nat)
  | read (address : Nat) (data : List Nat)
  deriving DecidableEq, Repr

/-- The bus handle `m_I2C` together with the world behind it: what the device answers
to the `k`-th read (`rx`), what `write` returns (`wret`, 0 on acknowledge), how many
reads have been made, and the log of transactions. -/
structure I2C where
  rx : Nat → Buf5
  wret : Nat → List Nat → Int
  nread : Nat
  log : List Txn

namespace I2C

/-- Transport call `write(address, data, length)`: logs the transaction and returns
the transport status (0 on acknowledge, non-zero otherwise). -/
def write (bus : I2C) (address : Nat) (data : List Nat) : Int × I2C :=
  (bus.wret address data, { bus with log := bus.log ++ [Txn.write address data] })

/-- Transport call `read(address, buff, length)`: delivers the next device answer,
logs the transaction. The answer is stored as it is; that its elements are bytes is the
hypothesis `Buf5.IsBytes` of the statements that depend on it. -/
def read (bus : I2C) (address : Nat) (length : Nat) : Buf5 × I2C :=
  (bus.rx bus.nread,
   { bus with nread := bus.nread + 1,
              log := bus.log ++ [Txn.read address ((bus.rx bus.nread).toList.take length)] })

end I2C

/-! ## The enumerations of `MCP4725.h` -/

namespace MCP4725

/-- The enumeration `MCP4725::Address`. -/
inductive Address where
  | ADDRESS_0
  | ADDRESS_1
  | ADDRESS_2
  | ADDRESS_3
  | ADDRESS_4
  | ADDRESS_5
  | ADDRESS_6
  | ADDRESS_7
  deriving DecidableEq, Repr

/-- The integer value of each `Address` enumerator, as written in the header. -/
def Address.toNat : Address → Nat
  | .ADDRESS_0 => 0x60 <<< 1
  | .ADDRESS_1 => 0x61 <<< 1
  | .ADDRESS_2 => 0x62 <<< 1
  | .ADDRESS_3 => 0x63 <<< 1
  | .ADDRESS_4 => 0x64 <<< 1
  | .ADDRESS_5 => 0x65 <<< 1
  | .ADDRESS_6 => 0x67 <<< 1
  | .ADDRESS_7 => 0x68 <<< 1

/-- The `A[2:0]` strap bits each enumerator's doc comment in the header states. -/
def Address.docBits : Address → Nat
  | .ADDRESS_0 => 0b000
  | .ADDRESS_1 => 0b001
  | .ADDRESS_2 => 0b010
  | .ADDRESS_3 => 0b011
  | .ADDRESS_4 => 0b100
  | .ADDRESS_5 => 0b101
  | .ADDRESS_6 => 0b110
  | .ADDRESS_7 => 0b111

/-- The enumerators in declaration order: `Address.all[i]` is `ADDRESS_i`. -/
def Address.all : List Address :=
  [.ADDRESS_0, .ADDRESS_1, .ADDRESS_2, .ADDRESS_3,
   .ADDRESS_4, .ADDRESS_5, .ADDRESS_6, .ADDRESS_7]

/-- The enumeration `MCP4725::PowerMode`. -/
inductive PowerMode where
  | POWER_NORMAL
  | POWER_SHUTDOWN_1K
  | POWER_SHUTDOWN_100K
  | POWER_SHUTDOWN_500K
  deriving DecidableEq, Repr

/-- The conversion `(int)mode`. -/
def PowerMode.toNat : PowerMode → Nat
  | .POWER_NORMAL => 0
  | .POWER_SHUTDOWN_1K => 1
  | .POWER_SHUTDOWN_100K => 2
  | .POWER_SHUTDOWN_500K => 3

/-- The conversion `(PowerMode)n`. The driver only applies it to `... & 0x03`, so the
last branch is taken for 3 only. -/
def PowerMode.cast : Nat → PowerMode
  | 0 => .POWER_NORMAL
  | 1 => .POWER_SHUTDOWN_1K
  | 2 => .POWER_SHUTDOWN_100K
  | _ => .POWER_SHUTDOWN_500K

end MCP4725

/-! ## The driver object -/

/-- The member variables of `class MCP4725`. -/
structure MCP4725 where
  m_I2C : I2C
  m_ADDR : Nat
  m_PowerMode : MCP4725.PowerMode
  m_DacValue : Nat

namespace MCP4725

/-- The constructor: stores `(int)addr`; the cached members are not initialised by the
source, so their initial content is a parameter. -/
def new (bus : I2C) (addr : Address) (mode0 : PowerMode) (value0 : Nat) : MCP4725 :=
  { m_I2C := bus, m_ADDR := addr.toNat, m_PowerMode := mode0, m_DacValue := value0 % 65536 }

/-- Method `MCP4725::readDac`. -/
def readDac (s : MCP4725) : MCP4725 :=
  let r := s.m_I2C.read s.m_ADDR 5
  let buff := r.1
  { s with
    m_I2C := r.2
    m_PowerMode := PowerMode.cast ((buff.b0 >>> 1) &&& 0x03)
    m_DacValue := ((buff.b1 <<< 4) ||| (buff.b2 >>> 4)) % 65536 }

/-- Method `MCP4725::writeDac`. -/
def writeDac (s : MCP4725) : MCP4725 :=
  let buff0 := ((s.m_PowerMode.toNat <<< 4) ||| (s.m_DacValue >>> 8)) % 256
  let buff1 := s.m_DacValue % 256
  { s with m_I2C := (s.m_I2C.write s.m_ADDR [buff0, buff1]).2 }

/-- Method `MCP4725::open`. -/
def «open» (s : MCP4725) : Bool × MCP4725 :=
  let r := s.m_I2C.write s.m_ADDR []
  if r.1 = 0 then (true, { s with m_I2C := r.2 }) else (false, { s with m_I2C := r.2 })

/-- Method `MCP4725::reset`. -/
def reset (s : MCP4725) : MCP4725 :=
  let data := 0x06
  { s with m_I2C := (s.m_I2C.write 0x00 [data]).2 }

/-- Method `MCP4725::wakeup`. -/
def wakeup (s : MCP4725) : MCP4725 :=
  let data := 0x09
  { s with m_I2C := (s.m_I2C.write 0x00 [data]).2 }

/-- Method `MCP4725::powerMode()` (the getter). -/
def powerMode (s : MCP4725) : PowerMode × MCP4725 :=
  let s1 := readDac s
  (s1.m_PowerMode, s1)

/-- Method `MCP4725::powerMode(PowerMode mode)` (the setter). -/
def powerModeSet (s : MCP4725) (mode : PowerMode) : MCP4725 :=
  writeDac { s with m_PowerMode := mode }

/-- Method `MCP4725::read`. -/
def read (s : MCP4725) : ℚ × MCP4725 :=
  let s1 := readDac s
  ((s1.m_DacValue : ℚ) / 4095, s1)

/-- The conversion `(unsigned short)x` of a real number: the fractional part is
discarded (rounding toward zero) and the result is stored in 16 bits. -/
def toUShort (x : ℚ) : Nat :=
  (Int.toNat (if 0 ≤ x then ⌊x⌋ else ⌈x⌉)) % 65536

/-- Method `MCP4725::write(float value)`. -/
def write (s : MCP4725) (value : ℚ) : MCP4725 :=
  let value := if value < 0 then 0 else if value > 1 then 1 else value
  writeDac { s with m_DacValue := toUShort (value * 4095) }

/-- Method `MCP4725::write_u12(unsigned short value)`. -/
def write_u12 (s : MCP4725) (value : Nat) : MCP4725 :=
  writeDac { s with m_DacValue := value % 65536 }

/-- The loop `do { m_I2C.read(m_ADDR, buff, 5); } while ((buff[0] & 0x80) == 0);` of
`readEeprom` and `writeEeprom`: the last buffer read and the bus afterwards, or `none`
when the fuel runs out first. -/
def pollReady (address : Nat) : Nat → I2C → Option (Buf5 × I2C)
  | 0, _ => none
  | fuel + 1, bus =>
    let r := bus.read address 5
    if r.1.b0 &&& 0x80 = 0 then pollReady address fuel r.2 else some r

/-- Method `MCP4725::readEeprom`; the two out-parameters are returned as a pair. -/
def readEeprom (fuel : Nat) (s : MCP4725) : Option ((PowerMode × Nat) × MCP4725) :=
  match pollReady s.m_ADDR fuel s.m_I2C with
  | none => none
  | some (buff, bus) =>
    let mode := PowerMode.cast ((buff.b3 >>> 5) &&& 0x03)
    let value := (((buff.b3 <<< 8) &&& 0xFFF) ||| buff.b4) % 65536
    some ((mode, value), { s with m_I2C := bus })

/-- Method `MCP4725::writeEeprom`. -/
def writeEeprom (fuel : Nat) (s : MCP4725) (mode : PowerMode) (value : Nat) :
    Option MCP4725 :=
  match pollReady s.m_ADDR fuel s.m_I2C with
  | none => none
  | some (_, bus) =>
    let buff0 := (0x60 ||| (mode.toNat <<< 1)) % 256
    let buff1 := (value >>> 4) % 256
    let buff2 := (value <<< 4) % 256
    some { s with m_I2C := (bus.write s.m_ADDR [buff0, buff1, buff2]).2 }

end MCP4725

/-! ## Vocabulary for the statements -/

namespace I2C

/-- Counting from the read cursor, the device answers busy (bit 7 of byte 0 clear) to
the next `k` reads and ready (bit 7 set) to the one after them. -/
def ReadyAfter (bus : I2C) (k : Nat) : Prop :=
  (∀ i, i < k → (bus.rx (bus.nread + i)).b0 &&& 0x80 = 0) ∧
    (bus.rx (bus.nread + k)).b0 &&& 0x80 ≠ 0

instance (bus : I2C) (k : Nat) : Decidable (bus.ReadyAfter k) := by
  unfold ReadyAfter
  exact inferInstance

/-- The log entries of `k + 1` successive 5-byte reads from `address`, starting at the
read cursor. -/
def pollLog (bus : I2C) (address k : Nat) : List Txn :=
  (List.range (k + 1)).map fun i => Txn.read address (bus.rx (bus.nread + i)).toList

/-- The bus after `k + 1` successive 5-byte reads from `address`. -/
def afterPoll (bus : I2C) (address k : Nat) : I2C :=
  { bus with nread := bus.nread + k + 1, log := bus.log ++ bus.pollLog address k }

end I2C

namespace MCP4725

/-- The 12-bit value a fast-write frame `[byte0, byte1]` carries on the wire:
`((byte0 & 0x0F) << 8) | byte1`. -/
def fastWriteValue (byte0 byte1 : Nat) : Nat := ((byte0 &&& 0x0F) <<< 8) ||| byte1

end MCP4725

/-! ## Concrete configurations used to instantiate the theorems -/

namespace MCP4725

/-- A device that is ready at once and reports mode `POWER_SHUTDOWN_100K`, value
`0xABC` in the read-register layout and mode `POWER_SHUTDOWN_1K`, value `0x123` in the
EEPROM bytes; every write is acknowledged. -/
def readyBus : I2C :=
  { rx := fun _ => ⟨0xC4, 0xAB, 0xC0, 0x21, 0x23⟩, wret := fun _ _ => 0, nread := 0, log := [] }

/-- The same device answering busy to the first two reads. -/
def slowBus : I2C :=
  { rx := fun k => if k < 2 then ⟨0x44, 0xAB, 0xC0, 0x21, 0x23⟩
                   else ⟨0xC4, 0xAB, 0xC0, 0x21, 0x23⟩,
    wret := fun _ _ => 0, nread := 0, log := [] }

/-- A driver at `ADDRESS_0` on `readyBus` caching mode `POWER_SHUTDOWN_100K`, value `0xABC`. -/
def readyDac : MCP4725 := new readyBus .ADDRESS_0 .POWER_SHUTDOWN_100K 0xABC

/-- A driver at `ADDRESS_1` on `slowBus` caching mode `POWER_NORMAL`, value `0`. -/
def slowDac : MCP4725 := new slowBus .ADDRESS_1 .POWER_NORMAL 0

/-- A device in shutdown with the 1 kΩ pull-down: byte 0 of its answer is `0xC2`, ready
and power-on-reset flags set (bits 7 and 6) and the mode bits 2-1 equal to `01`; no
write is acknowledged. -/
def shutdownBus : I2C :=
  { rx := fun _ => ⟨0xC2, 0x80, 0x00, 0x20, 0x00⟩, wret := fun _ _ => 1, nread := 0, log := [] }

/-- A driver at `ADDRESS_3` on `shutdownBus` caching mode `POWER_NORMAL`, value `0x800`. -/
def shutdownDac : MCP4725 := new shutdownBus .ADDRESS_3 .POWER_NORMAL 0x800

end MCP4725

/-! ## Bit-level arithmetic used by the wire formats -/

namespace MCP4725

/-- An OR of a left-shifted field with a value that fits below it is a sum. -/
theorem shl_or_eq_add (a b n : Nat) (h : b < 2 ^ n) : (a <<< n) ||| b = a * 2 ^ n + b := by
  rw [Nat.shiftLeft_eq, Nat.mul_comm a, ← Nat.mul_add_lt_is_or h]

/-- The same with the operands of the OR in the other order. -/
theorem or_shl_eq_add (a b n : Nat) (h : b < 2 ^ n) : b ||| (a <<< n) = a * 2 ^ n + b := by
  rw [Nat.or_comm, shl_or_eq_add a b n h]

theorem and_3 (x : Nat) : x &&& 0x03 = x % 4 := Nat.and_pow_two_sub_one_eq_mod x 2

theorem and_0x0F (x : Nat) : x &&& 0x0F = x % 16 := Nat.and_pow_two_sub_one_eq_mod x 4

theorem and_0xFF (x : Nat) : x &&& 0xFF = x % 256 := Nat.and_pow_two_sub_one_eq_mod x 8

theorem and_0xFFF (x : Nat) : x &&& 0xFFF = x % 4096 := Nat.and_pow_two_sub_one_eq_mod x 12

theorem PowerMode.toNat_lt (m : PowerMode) : m.toNat < 4 := by
  cases m <;> decide

theorem PowerMode.cast_toNat (m : PowerMode) : PowerMode.cast m.toNat = m := by
  cases m <;> rfl

theorem PowerMode.toNat_cast (n : Nat) (h : n < 4) : (PowerMode.cast n).toNat = n := by
  match n, h with
  | 0, _ => rfl
  | 1, _ => rfl
  | 2, _ => rfl
  | 3, _ => rfl

/-- The state `readDac` leaves, field by field. -/
theorem readDac_eq (s : MCP4725) :
    readDac s =
      { m_I2C :=
          { rx := s.m_I2C.rx, wret := s.m_I2C.wret, nread := s.m_I2C.nread + 1,
            log := s.m_I2C.log ++
              [Txn.read s.m_ADDR (s.m_I2C.rx s.m_I2C.nread).toList] },
        m_ADDR := s.m_ADDR,
        m_PowerMode := PowerMode.cast (((s.m_I2C.rx s.m_I2C.nread).b0 >>> 1) &&& 0x03),
        m_DacValue :=
          (((s.m_I2C.rx s.m_I2C.nread).b1 <<< 4) ||| ((s.m_I2C.rx s.m_I2C.nread).b2 >>> 4))
            % 65536 } := rfl

/-- The state `writeDac` leaves, field by field. -/
theorem writeDac_eq (s : MCP4725) :
    writeDac s =
      { m_I2C :=
          { rx := s.m_I2C.rx, wret := s.m_I2C.wret, nread := s.m_I2C.nread,
            log := s.m_I2C.log ++
              [Txn.write s.m_ADDR
                [((s.m_PowerMode.toNat <<< 4) ||| (s.m_DacValue >>> 8)) % 256,
                 s.m_DacValue % 256]] },
        m_ADDR := s.m_ADDR,
        m_PowerMode := s.m_PowerMode,
        m_DacValue := s.m_DacValue } := rfl

/-- The 12-bit value `readDac` assembles from two bytes. -/
theorem dac_value_decode (b1 b2 : Nat) (h1 : b1 < 256) (h2 : b2 < 256) :
    ((b1 <<< 4) ||| (b2 >>> 4)) = b1 * 16 + b2 / 16 ∧ ((b1 <<< 4) ||| (b2 >>> 4)) ≤ 4095 := by
  have h := shl_or_eq_add b1 (b2 >>> 4) 4 (by omega)
  omega

end MCP4725

/-! ## The busy-wait loop -/

namespace MCP4725

/-- A 5-byte read, field by field. -/
theorem I2C_read_eq (bus : I2C) (address : Nat) :
    bus.read address 5 =
      (bus.rx bus.nread,
        { rx := bus.rx, wret := bus.wret, nread := bus.nread + 1,
          log := bus.log ++ [Txn.read address (bus.rx bus.nread).toList] }) := rfl

theorem pollLog_succ (bus : I2C) (address k : Nat) :
    bus.pollLog address (k + 1) =
      Txn.read address (bus.rx bus.nread).toList ::
        (bus.read address 5).2.pollLog address k := by
  unfold I2C.pollLog
  rw [List.range_succ_eq_map (k + 1)]
  simp only [List.map_cons, List.map_map, I2C_read_eq, Nat.add_zero]
  congr 1
  apply List.map_congr_left
  intro i _
  simp only [Function.comp, Nat.succ_eq_add_one]
  congr 3
  omega

theorem rx_after_read (bus : I2C) (address k : Nat) :
    (bus.read address 5).2.rx ((bus.read address 5).2.nread + k) =
      bus.rx (bus.nread + (k + 1)) := by
  simp only [I2C_read_eq]
  congr 1
  omega

theorem afterPoll_succ (bus : I2C) (address k : Nat) :
    (bus.read address 5).2.afterPoll address k = bus.afterPoll address (k + 1) := by
  have hn : bus.nread + 1 + k + 1 = bus.nread + (k + 1) + 1 := by omega
  simp only [I2C.afterPoll, pollLog_succ]
  simp only [I2C_read_eq, hn, List.append_assoc, List.singleton_append]

theorem readyAfter_succ_iff (bus : I2C) (address k : Nat) :
    bus.ReadyAfter (k + 1) ↔
      (bus.rx bus.nread).b0 &&& 0x80 = 0 ∧ (bus.read address 5).2.ReadyAfter k := by
  unfold I2C.ReadyAfter
  rw [rx_after_read]
  constructor
  · rintro ⟨hb, hr⟩
    refine ⟨by simpa using hb 0 (by omega), fun i hi => ?_, hr⟩
    rw [rx_after_read]
    exact hb (i + 1) (by omega)
  · rintro ⟨h0, hb, hr⟩
    refine ⟨fun i hi => ?_, hr⟩
    cases i with
    | zero => simpa using h0
    | succ i =>
      have := hb i (by omega)
      rwa [rx_after_read] at this

theorem pollReady_busy_step (address fuel : Nat) (bus : I2C)
    (hb : (bus.rx bus.nread).b0 &&& 0x80 = 0) :
    pollReady address (fuel + 1) bus = pollReady address fuel (bus.read address 5).2 := by
  simp only [pollReady]
  rw [if_pos (by simpa [I2C_read_eq] using hb)]

theorem pollReady_ready_step (address fuel : Nat) (bus : I2C)
    (hr : (bus.rx bus.nread).b0 &&& 0x80 ≠ 0) :
    pollReady address (fuel + 1) bus = some (bus.rx (bus.nread + 0), bus.afterPoll address 0) := by
  simp only [pollReady]
  rw [if_neg (by simpa [I2C_read_eq] using hr)]
  rfl

/-- Enough fuel gives the result: when the device is ready after `k` busy answers and
the loop may run more than `k` times, it ends on answer `k` having made `k + 1` reads. -/
theorem pollReady_of_readyAfter (address : Nat) :
    ∀ (fuel : Nat) (bus : I2C) (k : Nat), bus.ReadyAfter k → k < fuel →
      pollReady address fuel bus =
        some (bus.rx (bus.nread + k), bus.afterPoll address k) := by
  intro fuel
  induction fuel with
  | zero => intro bus k _ hf; omega
  | succ fuel ih =>
    intro bus k hk hf
    cases k with
    | zero => exact pollReady_ready_step address fuel bus (by simpa using hk.2)
    | succ k =>
      obtain ⟨hb, hk1⟩ := (readyAfter_succ_iff bus address k).1 hk
      rw [pollReady_busy_step address fuel bus hb, ih _ k hk1 (by omega), rx_after_read,
        afterPoll_succ]

/-- Every result of the loop comes from a ready answer preceded by busy answers only. -/
theorem readyAfter_of_pollReady (address : Nat) :
    ∀ (fuel : Nat) (bus : I2C) (r : Buf5 × I2C), pollReady address fuel bus = some r →
      ∃ k, k < fuel ∧ bus.ReadyAfter k ∧
        r = (bus.rx (bus.nread + k), bus.afterPoll address k) := by
  intro fuel
  induction fuel with
  | zero => intro bus r h; simp [pollReady] at h
  | succ fuel ih =>
    intro bus r h
    by_cases hb : (bus.rx bus.nread).b0 &&& 0x80 = 0
    · rw [pollReady_busy_step address fuel bus hb] at h
      obtain ⟨k, hk, hready, hr⟩ := ih _ r h
      refine ⟨k + 1, by omega, (readyAfter_succ_iff bus address k).2 ⟨hb, hready⟩, ?_⟩
      rw [hr, rx_after_read, afterPoll_succ]
    · rw [pollReady_ready_step address fuel bus hb] at h
      exact ⟨0, by omega, ⟨fun i hi => by omega, by simpa using hb⟩, (Option.some.inj h).symm⟩

/-- While every answer within the fuel is busy the loop does not end. -/
theorem pollReady_none_of_busy (address : Nat) (fuel : Nat) (bus : I2C)
    (hbusy : ∀ i, i < fuel → (bus.rx (bus.nread + i)).b0 &&& 0x80 = 0) :
    pollReady address fuel bus = none := by
  cases h : pollReady address fuel bus with
  | none => rfl
  | some r =>
    obtain ⟨k, hk, hready, _⟩ := readyAfter_of_pollReady address fuel bus r h
    exact absurd (hbusy k hk) hready.2

end MCP4725

/-! ## Raw write and the address table -/

namespace MCP4725

/-- What `write_u12` transmits for any argument: the cached mode OR-ed with bits 15..8
of the value, then bits 7..0 of the value. -/
theorem write_u12_log (s : MCP4725) (v : Nat) :
    (write_u12 s v).m_I2C.log =
      s.m_I2C.log ++
        [Txn.write s.m_ADDR
          [((s.m_PowerMode.toNat <<< 4) ||| ((v % 65536) >>> 8)) % 256, (v % 65536) % 256]] :=
  rfl

/-- C1, the code at the value 4096 with cached mode `POWER_NORMAL`: `write_u12(4096)`
sends the two bytes `[0x10, 0x00]`. Bit 12 of the value lands in the mode field, so bits
5-4 of byte 0 read 1 (`POWER_SHUTDOWN_1K`) and not the cached mode 0, and the frame is
not the fast-write frame `[0x00, 0x00]` of `(POWER_NORMAL, 4096 mod 4096)`. -/
theorem write_u12_4096_overflows_into_mode (bus : I2C) (addr d : Nat) :
    (write_u12 ⟨bus, addr, .POWER_NORMAL, d⟩ 4096).m_I2C.log =
        bus.log ++ [Txn.write addr [0x10, 0x00]] ∧
      [0x10, 0x00] ≠
        [(PowerMode.POWER_NORMAL.toNat <<< 4) ||| ((4096 % 4096) >>> 8), 4096 % 256] ∧
      (0x10 >>> 4) &&& 0x03 = PowerMode.POWER_SHUTDOWN_1K.toNat ∧
      (0x10 >>> 4) &&& 0x03 ≠ PowerMode.POWER_NORMAL.toNat := by
  refine ⟨?_, by decide, by decide, by decide⟩
  rw [write_u12_log]
  simp [PowerMode.toNat]

/-- C4, the code at `ADDRESS_6` and `ADDRESS_7`: the header gives them the values
`0x67 << 1` and `0x68 << 1`, not `(0x60 + 6) << 1` and `(0x60 + 7) << 1`. The strap
bits of `ADDRESS_6` are 111 where its doc comment says 110, the 7-bit address of
`ADDRESS_7` is `0x68`, outside `0x60..0x67`, with strap bits 000 where its doc comment
says 111, and `ADDRESS_0` .. `ADDRESS_5` do equal `(0x60 + i) << 1`. -/
theorem address_6_7_off_by_one :
    Address.ADDRESS_6.toNat = 0x67 <<< 1 ∧
      Address.ADDRESS_6.toNat ≠ (0x60 + 6) <<< 1 ∧
      (Address.ADDRESS_6.toNat >>> 1) &&& 0x07 = 0b111 ∧
      Address.ADDRESS_6.docBits = 0b110 ∧
      Address.ADDRESS_7.toNat = 0x68 <<< 1 ∧
      Address.ADDRESS_7.toNat ≠ (0x60 + 7) <<< 1 ∧
      ¬ (Address.ADDRESS_7.toNat >>> 1 ≤ 0x67) ∧
      (Address.ADDRESS_7.toNat >>> 1) &&& 0x07 = 0b000 ∧
      Address.ADDRESS_7.docBits = 0b111 ∧
      (∀ i, i < 6 → (Address.all.map Address.toNat)[i]? = some ((0x60 + i) <<< 1)) := by
  decide

end MCP4725

/-! ## Volatile register: fast write and register read -/

namespace MCP4725

/-- C3: for every 12-bit value `x` and every power mode `m`, the two bytes `writeDac`
sends for the cached state `(m, x)` carry `m` in bits 5-4 of byte 0 and `x` as
`((byte0 & 0x0F) << 8) | byte1`; and when the device answers a register read with
byte 0 bits 2-1 = `m`, byte 1 = `x >> 4`, byte 2 = `(x & 0x0F) << 4`, `readDac` leaves
exactly `(m, x)` in the cache. -/
theorem fastWrite_readRegister_roundtrip (s t : MCP4725) (m : PowerMode) (x : Nat)
    (hx : x ≤ 4095) (hm : s.m_PowerMode = m) (hv : s.m_DacValue = x)
    (h0 : ((t.m_I2C.rx t.m_I2C.nread).b0 >>> 1) &&& 0x03 = m.toNat)
    (h1 : (t.m_I2C.rx t.m_I2C.nread).b1 = x >>> 4)
    (h2 : (t.m_I2C.rx t.m_I2C.nread).b2 = (x &&& 0x0F) <<< 4) :
    (∃ b0 b1, (writeDac s).m_I2C.log = s.m_I2C.log ++ [Txn.write s.m_ADDR [b0, b1]] ∧
        b0 < 256 ∧ b1 < 256 ∧
        (b0 >>> 4) &&& 0x03 = m.toNat ∧
        ((b0 &&& 0x0F) <<< 8) ||| b1 = x) ∧
      (readDac t).m_PowerMode = m ∧ (readDac t).m_DacValue = x := by
  have hmlt := m.toNat_lt
  refine ⟨⟨_, _, by rw [writeDac_eq], ?_, ?_, ?_, ?_⟩, ?_, ?_⟩
  · omega
  · omega
  · rw [hm, hv, and_3, shl_or_eq_add m.toNat (x >>> 8) 4 (by omega)]
    omega
  · rw [hm, hv, and_0x0F, shl_or_eq_add m.toNat (x >>> 8) 4 (by omega),
      shl_or_eq_add _ (x % 256) 8 (by omega)]
    omega
  · rw [readDac_eq]
    simp only [h0, PowerMode.cast_toNat]
  · rw [readDac_eq]
    simp only [h1, h2, and_0x0F]
    rw [shl_or_eq_add (x >>> 4) (((x % 16) <<< 4) >>> 4) 4 (by omega)]
    omega

/-- C3 at a concrete state: mode `POWER_SHUTDOWN_100K`, value `0xABC`. -/
theorem fastWrite_readRegister_roundtrip_witness :
    (0xABC ≤ 4095 ∧ readyDac.m_PowerMode = .POWER_SHUTDOWN_100K ∧ readyDac.m_DacValue = 0xABC ∧
      ((readyDac.m_I2C.rx readyDac.m_I2C.nread).b0 >>> 1) &&& 0x03
        = PowerMode.POWER_SHUTDOWN_100K.toNat ∧
      (readyDac.m_I2C.rx readyDac.m_I2C.nread).b1 = 0xABC >>> 4 ∧
      (readyDac.m_I2C.rx readyDac.m_I2C.nread).b2 = (0xABC &&& 0x0F) <<< 4) ∧
    ((∃ b0 b1, (writeDac readyDac).m_I2C.log =
          readyDac.m_I2C.log ++ [Txn.write readyDac.m_ADDR [b0, b1]] ∧
        b0 < 256 ∧ b1 < 256 ∧
        (b0 >>> 4) &&& 0x03 = PowerMode.POWER_SHUTDOWN_100K.toNat ∧
        ((b0 &&& 0x0F) <<< 8) ||| b1 = 0xABC) ∧
      (readDac readyDac).m_PowerMode = .POWER_SHUTDOWN_100K ∧
      (readDac readyDac).m_DacValue = 0xABC) :=
  ⟨by decide,
    fastWrite_readRegister_roundtrip readyDac readyDac .POWER_SHUTDOWN_100K 0xABC
      (by decide) (by decide) (by decide) (by decide) (by decide) (by decide)⟩

/-- C10: for every 5-byte answer `b`, `powerMode()` makes exactly one 5-byte read from
the configured address, returns the mode in bits 2-1 of `b[0]`, and leaves
`(b[1] << 4) | (b[2] >> 4)`, a value in `[0, 4095]`, as the cached output value. -/
theorem powerMode_get_decodes (s : MCP4725) (b : Buf5)
    (hb : s.m_I2C.rx s.m_I2C.nread = b) (hbytes : b.IsBytes) :
    (powerMode s).1.toNat = (b.b0 >>> 1) &&& 0x03 ∧
      (powerMode s).2.m_PowerMode = (powerMode s).1 ∧
      (powerMode s).2.m_I2C.log =
        s.m_I2C.log ++ [Txn.read s.m_ADDR [b.b0, b.b1, b.b2, b.b3, b.b4]] ∧
      (powerMode s).2.m_I2C.nread = s.m_I2C.nread + 1 ∧
      (powerMode s).2.m_DacValue = (b.b1 <<< 4) ||| (b.b2 >>> 4) ∧
      (powerMode s).2.m_DacValue ≤ 4095 ∧
      (powerMode s).2.m_ADDR = s.m_ADDR := by
  obtain ⟨_, h1, h2, _, _⟩ := hbytes
  obtain ⟨hd, hle⟩ := dac_value_decode b.b1 b.b2 h1 h2
  have hval : (powerMode s).2.m_DacValue = (b.b1 <<< 4) ||| (b.b2 >>> 4) := by
    show (readDac s).m_DacValue = _
    rw [readDac_eq, hb]
    exact Nat.mod_eq_of_lt (by omega)
  refine ⟨?_, rfl, ?_, rfl, hval, by rw [hval]; exact hle, rfl⟩
  · show (readDac s).m_PowerMode.toNat = _
    rw [readDac_eq, hb]
    exact PowerMode.toNat_cast _ (by rw [and_3]; omega)
  · show (readDac s).m_I2C.log = _
    rw [readDac_eq, hb]
    rfl

/-- C10 at a concrete state: the answer `C4 AB C0 21 23` gives mode 2 and value `0xABC`. -/
theorem powerMode_get_decodes_witness :
    (readyDac.m_I2C.rx readyDac.m_I2C.nread = ⟨0xC4, 0xAB, 0xC0, 0x21, 0x23⟩ ∧
      Buf5.IsBytes ⟨0xC4, 0xAB, 0xC0, 0x21, 0x23⟩) ∧
    (powerMode readyDac).1 = .POWER_SHUTDOWN_100K ∧
    (powerMode readyDac).2.m_DacValue = 0xABC ∧
    (powerMode readyDac).2.m_I2C.log = [Txn.read 0xC0 [0xC4, 0xAB, 0xC0, 0x21, 0x23]] := by
  have h := powerMode_get_decodes readyDac ⟨0xC4, 0xAB, 0xC0, 0x21, 0x23⟩ rfl (by decide)
  refine ⟨⟨rfl, by decide⟩, ?_, ?_, ?_⟩
  · rw [← PowerMode.cast_toNat (powerMode readyDac).1, h.1]
    rfl
  · rw [h.2.2.2.2.1]
    rfl
  · rw [h.2.2.1]
    rfl

end MCP4725

/-! ## EEPROM access -/

namespace MCP4725

/-- Enough fuel gives the result of `writeEeprom`: the polls, then one 3-byte write. -/
theorem writeEeprom_eq (s : MCP4725) (m : PowerMode) (v k fuel : Nat)
    (hk : s.m_I2C.ReadyAfter k) (hf : k < fuel) :
    writeEeprom fuel s m v =
      some { m_I2C :=
               { rx := s.m_I2C.rx, wret := s.m_I2C.wret, nread := s.m_I2C.nread + k + 1,
                 log := s.m_I2C.log ++ s.m_I2C.pollLog s.m_ADDR k ++
                   [Txn.write s.m_ADDR
                     [(0x60 ||| (m.toNat <<< 1)) % 256, (v >>> 4) % 256, (v <<< 4) % 256]] },
             m_ADDR := s.m_ADDR, m_PowerMode := s.m_PowerMode, m_DacValue := s.m_DacValue } := by
  unfold writeEeprom
  rw [pollReady_of_readyAfter s.m_ADDR fuel s.m_I2C k hk hf]
  rfl

/-- Enough fuel gives the result of `readEeprom`: the polls, then the decoded answer. -/
theorem readEeprom_eq (s : MCP4725) (k fuel : Nat)
    (hk : s.m_I2C.ReadyAfter k) (hf : k < fuel) :
    readEeprom fuel s =
      some ((PowerMode.cast (((s.m_I2C.rx (s.m_I2C.nread + k)).b3 >>> 5) &&& 0x03),
             ((((s.m_I2C.rx (s.m_I2C.nread + k)).b3 <<< 8) &&& 0xFFF) |||
               (s.m_I2C.rx (s.m_I2C.nread + k)).b4) % 65536),
            { m_I2C :=
                { rx := s.m_I2C.rx, wret := s.m_I2C.wret, nread := s.m_I2C.nread + k + 1,
                  log := s.m_I2C.log ++ s.m_I2C.pollLog s.m_ADDR k },
              m_ADDR := s.m_ADDR, m_PowerMode := s.m_PowerMode,
              m_DacValue := s.m_DacValue }) := by
  unfold readEeprom
  rw [pollReady_of_readyAfter s.m_ADDR fuel s.m_I2C k hk hf]
  rfl

/-- A run of `writeEeprom` that returns found the device ready after some `k` polls. -/
theorem readyAfter_of_writeEeprom (s s' : MCP4725) (m : PowerMode) (v fuel : Nat)
    (h : writeEeprom fuel s m v = some s') : ∃ k, k < fuel ∧ s.m_I2C.ReadyAfter k := by
  unfold writeEeprom at h
  cases hp : pollReady s.m_ADDR fuel s.m_I2C with
  | none => rw [hp] at h; exact absurd h (by simp)
  | some r =>
    obtain ⟨k, hk, hready, _⟩ := readyAfter_of_pollReady s.m_ADDR fuel s.m_I2C r hp
    exact ⟨k, hk, hready⟩

/-- A run of `readEeprom` that returns found the device ready after some `k` polls. -/
theorem readyAfter_of_readEeprom (s : MCP4725) (out : (PowerMode × Nat) × MCP4725)
    (fuel : Nat) (h : readEeprom fuel s = some out) :
    ∃ k, k < fuel ∧ s.m_I2C.ReadyAfter k := by
  unfold readEeprom at h
  cases hp : pollReady s.m_ADDR fuel s.m_I2C with
  | none => rw [hp] at h; exact absurd h (by simp)
  | some r =>
    obtain ⟨k, hk, hready, _⟩ := readyAfter_of_pollReady s.m_ADDR fuel s.m_I2C r hp
    exact ⟨k, hk, hready⟩

/-- While the device stays busy neither EEPROM operation gets past its loop. -/
theorem eeprom_none_of_busy (s : MCP4725) (m : PowerMode) (v fuel : Nat)
    (hbusy : ∀ i, i < fuel → (s.m_I2C.rx (s.m_I2C.nread + i)).b0 &&& 0x80 = 0) :
    writeEeprom fuel s m v = none ∧ readEeprom fuel s = none := by
  unfold writeEeprom readEeprom
  rw [pollReady_none_of_busy s.m_ADDR fuel s.m_I2C hbusy]
  exact ⟨rfl, rfl⟩

/-- The polls split into the busy reads and the final ready read. -/
theorem pollLog_eq_append (bus : I2C) (address k : Nat) :
    bus.pollLog address k =
      ((List.range k).map fun i => Txn.read address (bus.rx (bus.nread + i)).toList) ++
        [Txn.read address (bus.rx (bus.nread + k)).toList] := by
  unfold I2C.pollLog
  rw [List.range_succ, List.map_append]
  rfl

/-- The third byte of the EEPROM command: a store of `value << 4` into a `char` keeps
bits 7..4 only. -/
theorem shl4_mod_256 (x : Nat) : (x <<< 4) % 256 = (x <<< 4) &&& 0xF0 := by
  apply Nat.eq_of_testBit_eq
  intro i
  have h256 : (256 : Nat) = 2 ^ 8 := by norm_num
  have hF0 : (0xF0 : Nat) = (2 ^ 4 - 1) <<< 4 := by decide
  rw [h256, hF0, Nat.testBit_mod_two_pow, Nat.testBit_and, Nat.testBit_shiftLeft,
    Nat.testBit_shiftLeft, Nat.testBit_two_pow_sub_one]
  by_cases h4 : 4 ≤ i <;> by_cases h8 : i < 8 <;> simp [h4, h8] <;> omega

/-- The low nibble of the third byte is zero. -/
theorem shl4_low_nibble (x : Nat) : ((x <<< 4) &&& 0xF0) &&& 0x0F = 0 := by
  rw [Nat.and_assoc]
  have : (0xF0 : Nat) &&& 0x0F = 0 := by decide
  rw [this, Nat.and_zero]

/-- The first byte of the EEPROM command fits a `char` and carries `011` in bits 7-5
and the mode in bits 2-1. -/
theorem eeprom_cmd_byte (m : PowerMode) :
    (0x60 ||| (m.toNat <<< 1)) % 256 = 0x60 ||| (m.toNat <<< 1) ∧
      (0x60 ||| (m.toNat <<< 1)) < 256 ∧
      (0x60 ||| (m.toNat <<< 1)) >>> 5 = 0b011 ∧
      ((0x60 ||| (m.toNat <<< 1)) >>> 1) &&& 0x03 = m.toNat := by
  cases m <;> decide

/-- C8: for every power mode `m` and 12-bit value `x`, once the device is ready (after
`k` busy answers, with fuel for more than `k` polls) `writeEeprom(m, x)` returns having
logged, after its polls, exactly one write to the configured address, of the three
bytes `[0x60 | (m << 1), x >> 4, (x << 4) & 0xF0]`; the low nibble of byte 2 is zero
and bits 7-5 of byte 0 are `011`. -/
theorem writeEeprom_frame (s : MCP4725) (m : PowerMode) (x k fuel : Nat)
    (hx : x ≤ 4095) (hk : s.m_I2C.ReadyAfter k) (hf : k < fuel) :
    ∃ s', writeEeprom fuel s m x = some s' ∧
      s'.m_I2C.log =
        s.m_I2C.log ++ s.m_I2C.pollLog s.m_ADDR k ++
          [Txn.write s.m_ADDR [0x60 ||| (m.toNat <<< 1), x >>> 4, (x <<< 4) &&& 0xF0]] ∧
      0x60 ||| (m.toNat <<< 1) < 256 ∧ x >>> 4 < 256 ∧ (x <<< 4) &&& 0xF0 < 256 ∧
      ((x <<< 4) &&& 0xF0) &&& 0x0F = 0 ∧
      (0x60 ||| (m.toNat <<< 1)) >>> 5 = 0b011 := by
  obtain ⟨hc, hlt, h011, _⟩ := eeprom_cmd_byte m
  have h1 : (x >>> 4) % 256 = x >>> 4 := by omega
  refine ⟨_, writeEeprom_eq s m x k fuel hk hf, ?_, hlt, by omega, ?_, shl4_low_nibble x, h011⟩
  · simp only [hc, h1, shl4_mod_256]
  · rw [← shl4_mod_256]
    omega

/-- C8 at a concrete run: two busy answers, then `writeEeprom(POWER_SHUTDOWN_1K, 0x123)`
sends `62 12 30` to `ADDRESS_1`. -/
theorem writeEeprom_frame_witness :
    (0x123 ≤ 4095 ∧ slowDac.m_I2C.ReadyAfter 2 ∧ 2 < 5) ∧
    ∃ s', writeEeprom 5 slowDac .POWER_SHUTDOWN_1K 0x123 = some s' ∧
      s'.m_I2C.log =
        [Txn.read 0xC2 [0x44, 0xAB, 0xC0, 0x21, 0x23],
         Txn.read 0xC2 [0x44, 0xAB, 0xC0, 0x21, 0x23],
         Txn.read 0xC2 [0xC4, 0xAB, 0xC0, 0x21, 0x23],
         Txn.write 0xC2 [0x62, 0x12, 0x30]] := by
  refine ⟨⟨by decide, by decide, by decide⟩, ?_⟩
  obtain ⟨s', h, hlog, _⟩ :=
    writeEeprom_frame slowDac .POWER_SHUTDOWN_1K 0x123 2 5 (by decide) (by decide) (by decide)
  exact ⟨s', h, by rw [hlog]; decide⟩

/-- The busy reads of a poll are reads from `address` whose byte 0 has bit 7 clear. -/
theorem busy_reads_of_readyAfter (bus : I2C) (address k : Nat) (hk : bus.ReadyAfter k) :
    ∀ t ∈ (List.range k).map fun i => Txn.read address (bus.rx (bus.nread + i)).toList,
      ∃ b : Buf5, t = Txn.read address b.toList ∧ b.b0 &&& 0x80 = 0 := by
  intro t ht
  obtain ⟨i, hi, rfl⟩ := List.mem_map.1 ht
  exact ⟨_, rfl, hk.1 i (List.mem_range.1 hi)⟩

/-- C7: in every run of `writeEeprom` that returns, the 3-byte write is the last
transaction of the call, the transaction right before it is a read whose byte 0 has
bit 7 set, and every earlier transaction of the call is a read whose byte 0 has bit 7
clear; and in every run of `readEeprom` that returns, the outputs are decoded from the
last read of the call, whose byte 0 has bit 7 set, all earlier reads having it clear. -/
theorem eeprom_access_only_after_ready (s s' t t' : MCP4725) (m mode : PowerMode)
    (v value fuel fuel' : Nat)
    (hw : writeEeprom fuel s m v = some s')
    (hr : readEeprom fuel' t = some ((mode, value), t')) :
    (∃ (pre : List Txn) (r : Buf5) (frame : List Nat),
        s'.m_I2C.log =
          s.m_I2C.log ++ pre ++ [Txn.read s.m_ADDR r.toList, Txn.write s.m_ADDR frame] ∧
        frame.length = 3 ∧ r.b0 &&& 0x80 ≠ 0 ∧
        ∀ e ∈ pre, ∃ b : Buf5, e = Txn.read s.m_ADDR b.toList ∧ b.b0 &&& 0x80 = 0) ∧
    (∃ (pre : List Txn) (r : Buf5),
        t'.m_I2C.log = t.m_I2C.log ++ pre ++ [Txn.read t.m_ADDR r.toList] ∧
        r.b0 &&& 0x80 ≠ 0 ∧
        (∀ e ∈ pre, ∃ b : Buf5, e = Txn.read t.m_ADDR b.toList ∧ b.b0 &&& 0x80 = 0) ∧
        mode = PowerMode.cast ((r.b3 >>> 5) &&& 0x03) ∧
        value = (((r.b3 <<< 8) &&& 0xFFF) ||| r.b4) % 65536) := by
  constructor
  · obtain ⟨k, hf, hk⟩ := readyAfter_of_writeEeprom s s' m v fuel hw
    rw [writeEeprom_eq s m v k fuel hk hf] at hw
    have hs := Option.some.inj hw
    refine ⟨_, s.m_I2C.rx (s.m_I2C.nread + k),
      [(0x60 ||| (m.toNat <<< 1)) % 256, (v >>> 4) % 256, (v <<< 4) % 256], ?_, ?_, hk.2,
      busy_reads_of_readyAfter s.m_I2C s.m_ADDR k hk⟩
    · rw [← hs, pollLog_eq_append]
      simp only [List.append_assoc, List.singleton_append]
    · rfl
  · obtain ⟨k, hf, hk⟩ := readyAfter_of_readEeprom t _ fuel' hr
    rw [readEeprom_eq t k fuel' hk hf] at hr
    have hs := Option.some.inj hr
    have h1 := congrArg (fun o => o.1.1) hs
    have h2 := congrArg (fun o => o.1.2) hs
    have h3 := congrArg (fun o => o.2.m_I2C.log) hs
    simp only at h1 h2 h3
    refine ⟨_, t.m_I2C.rx (t.m_I2C.nread + k), ?_, hk.2,
      busy_reads_of_readyAfter t.m_I2C t.m_ADDR k hk, h1.symm, h2.symm⟩
    rw [← h3, pollLog_eq_append]
    simp only [List.append_assoc]

/-- C7 at concrete runs on a device that answers busy twice: `writeEeprom` logs three
reads and then its write, `readEeprom` returns the content of the third answer. -/
theorem eeprom_access_only_after_ready_witness :
    (writeEeprom 3 slowDac .POWER_SHUTDOWN_500K 0xFFF).isSome = true ∧
    (readEeprom 3 slowDac).isSome = true ∧
    ((readEeprom 3 slowDac).map fun o => o.1) = some (.POWER_SHUTDOWN_1K, 0x123) ∧
    ((writeEeprom 3 slowDac .POWER_SHUTDOWN_500K 0xFFF).map fun o => o.m_I2C.log) =
      some [Txn.read 0xC2 [0x44, 0xAB, 0xC0, 0x21, 0x23],
            Txn.read 0xC2 [0x44, 0xAB, 0xC0, 0x21, 0x23],
            Txn.read 0xC2 [0xC4, 0xAB, 0xC0, 0x21, 0x23],
            Txn.write 0xC2 [0x66, 0xFF, 0xF0]] ∧
    ∃ (pre : List Txn) (r : Buf5),
      pre.length = 2 ∧ r.b0 &&& 0x80 ≠ 0 ∧
      (∀ e ∈ pre, ∃ b : Buf5, e = Txn.read slowDac.m_ADDR b.toList ∧ b.b0 &&& 0x80 = 0) ∧
      PowerMode.POWER_SHUTDOWN_1K = PowerMode.cast ((r.b3 >>> 5) &&& 0x03) := by
  have hw := writeEeprom_eq slowDac .POWER_SHUTDOWN_500K 0xFFF 2 3 (by decide) (by decide)
  have hr := readEeprom_eq slowDac 2 3 (by decide) (by decide)
  have hmode : PowerMode.cast
      (((slowDac.m_I2C.rx (slowDac.m_I2C.nread + 2)).b3 >>> 5) &&& 0x03)
        = .POWER_SHUTDOWN_1K := by decide
  have hval : ((((slowDac.m_I2C.rx (slowDac.m_I2C.nread + 2)).b3 <<< 8) &&& 0xFFF) |||
      (slowDac.m_I2C.rx (slowDac.m_I2C.nread + 2)).b4) % 65536 = 0x123 := by decide
  rw [hmode, hval] at hr
  obtain ⟨-, pre, r, hlog, hready, hpre, hm, -⟩ :=
    eeprom_access_only_after_ready slowDac _ slowDac _ .POWER_SHUTDOWN_500K
      .POWER_SHUTDOWN_1K 0xFFF 0x123 3 3 hw hr
  refine ⟨by rw [hw]; rfl, by rw [hr]; rfl, by rw [hr]; rfl, by rw [hw]; decide,
    pre, r, ?_, hready, hpre, hm⟩
  have hlen := congrArg List.length hlog
  rw [pollLog_eq_append] at hlen
  simp at hlen
  omega

/-- The 12-bit value `readEeprom` assembles: the low nibble of byte 3 above byte 4. -/
theorem eeprom_value_decode (b3 b4 : Nat) (h4 : b4 < 256) :
    ((b3 <<< 8) &&& 0xFFF) ||| b4 = ((b3 &&& 0x0F) <<< 8) ||| b4 ∧
      ((b3 <<< 8) &&& 0xFFF) ||| b4 = (b3 % 16) * 256 + b4 := by
  have h : (b3 <<< 8) &&& 0xFFF = (b3 &&& 0x0F) <<< 8 := by
    rw [and_0xFFF, and_0x0F]
    omega
  rw [h, and_0x0F, shl_or_eq_add (b3 % 16) b4 8 (by omega)]
  exact ⟨rfl, by omega⟩

/-- Bits 6-5 of a byte survive clearing its bits 7 and 4. -/
theorem mode_bits_of_masked (x : Nat) : (x >>> 5) &&& 0x03 = ((x &&& 0x6F) >>> 5) &&& 0x03 := by
  apply Nat.eq_of_testBit_eq
  intro i
  simp only [Nat.testBit_and, Nat.testBit_shiftRight]
  have h60 : Nat.testBit 0x6F 5 = true := by decide
  have h61 : Nat.testBit 0x6F 6 = true := by decide
  match i with
  | 0 => simp only [Nat.add_zero, h60, Bool.and_true]
  | 1 => simp only [h61, Bool.and_true]
  | i + 2 =>
    have : Nat.testBit 3 (i + 2) = false :=
      Nat.testBit_lt_two_pow (Nat.lt_of_lt_of_le (by decide : 3 < 2 ^ 2)
        (Nat.pow_le_pow_right (by decide) (by omega)))
    simp [this]

/-- Bits 3-0 of a byte survive clearing its bits 7 and 4. -/
theorem low_nibble_of_masked (x : Nat) : x &&& 0x0F = (x &&& 0x6F) &&& 0x0F := by
  rw [Nat.and_assoc]
  rfl

/-- C9: for every 5-byte ready answer `b`, `readEeprom` returns the mode in bits 6-5 of
`b[3]` (one of the four power modes) and the value `((b[3] & 0x0F) << 8) | b[4]`, which
lies in `[0, 4095]`; a second run whose ready answer `c` agrees with `b` on bits 6, 5,
3..0 of byte 3 and on byte 4 (and may differ in bits 7 and 4 of byte 3 and in bytes 0,
1, 2) returns the same mode and value. -/
theorem readEeprom_decodes (s t : MCP4725) (b c : Buf5) (k j fuel fuel' : Nat)
    (hk : s.m_I2C.ReadyAfter k) (hf : k < fuel)
    (hb : s.m_I2C.rx (s.m_I2C.nread + k) = b) (hbytes : b.IsBytes)
    (hj : t.m_I2C.ReadyAfter j) (hf' : j < fuel')
    (hc : t.m_I2C.rx (t.m_I2C.nread + j) = c) (hcbytes : c.IsBytes)
    (h3 : c.b3 &&& 0x6F = b.b3 &&& 0x6F) (h4 : c.b4 = b.b4) :
    ∃ (mode : PowerMode) (value : Nat) (s' t' : MCP4725),
      readEeprom fuel s = some ((mode, value), s') ∧
      mode.toNat = (b.b3 >>> 5) &&& 0x03 ∧
      value = ((b.b3 &&& 0x0F) <<< 8) ||| b.b4 ∧
      value ≤ 4095 ∧
      readEeprom fuel' t = some ((mode, value), t') := by
  obtain ⟨_, _, _, _, hb4⟩ := hbytes
  obtain ⟨_, _, _, _, hc4⟩ := hcbytes
  obtain ⟨hvb, hvb'⟩ := eeprom_value_decode b.b3 b.b4 hb4
  obtain ⟨hvc, _⟩ := eeprom_value_decode c.b3 c.b4 hc4
  have hmod : (((b.b3 <<< 8) &&& 0xFFF) ||| b.b4) % 65536 = ((b.b3 &&& 0x0F) <<< 8) ||| b.b4 := by
    rw [← hvb, hvb']
    omega
  have hle : ((b.b3 &&& 0x0F) <<< 8) ||| b.b4 ≤ 4095 := by
    rw [← hvb, hvb']
    omega
  have hcm : (c.b3 >>> 5) &&& 0x03 = (b.b3 >>> 5) &&& 0x03 := by
    rw [mode_bits_of_masked c.b3, h3, ← mode_bits_of_masked]
  have hcv : (((c.b3 <<< 8) &&& 0xFFF) ||| c.b4) % 65536 = ((b.b3 &&& 0x0F) <<< 8) ||| b.b4 := by
    rw [hvc, low_nibble_of_masked c.b3, h3, ← low_nibble_of_masked, h4]
    exact Nat.mod_eq_of_lt (by omega)
  have hs := readEeprom_eq s k fuel hk hf
  have ht := readEeprom_eq t j fuel' hj hf'
  rw [hb, hmod] at hs
  rw [hc, hcm, hcv] at ht
  exact ⟨PowerMode.cast ((b.b3 >>> 5) &&& 0x03), ((b.b3 &&& 0x0F) <<< 8) ||| b.b4, _, _,
    hs, PowerMode.toNat_cast _ (by rw [and_3]; omega), rfl, hle, ht⟩

/-- C9 at concrete runs: the answers `.. 21 23` and `.. B1 23` (bits 7 and 4 of byte 3
set, bytes 1 and 2 different) both decode to `POWER_SHUTDOWN_1K`, `0x123`. -/
theorem readEeprom_decodes_witness :
    (readyDac.m_I2C.ReadyAfter 0 ∧ 0 < 1 ∧
      readyDac.m_I2C.rx (readyDac.m_I2C.nread + 0) = ⟨0xC4, 0xAB, 0xC0, 0x21, 0x23⟩ ∧
      Buf5.IsBytes ⟨0xC4, 0xAB, 0xC0, 0x21, 0x23⟩ ∧
      Buf5.IsBytes ⟨0x80, 0x00, 0xFF, 0xB1, 0x23⟩ ∧
      (0xB1 &&& 0x6F = 0x21 &&& 0x6F)) ∧
    ∃ s' t',
      readEeprom 1 readyDac = some ((.POWER_SHUTDOWN_1K, 0x123), s') ∧
      readEeprom 1
          { readyDac with
            m_I2C := { readyBus with rx := fun _ => ⟨0x80, 0x00, 0xFF, 0xB1, 0x23⟩ } }
        = some ((.POWER_SHUTDOWN_1K, 0x123), t') := by
  refine ⟨⟨by decide, by decide, rfl, by decide, by decide, by decide⟩, ?_⟩
  obtain ⟨mode, value, s', t', hs, hm, hv, _, ht⟩ :=
    readEeprom_decodes readyDac
      { readyDac with
        m_I2C := { readyBus with rx := fun _ => ⟨0x80, 0x00, 0xFF, 0xB1, 0x23⟩ } }
      ⟨0xC4, 0xAB, 0xC0, 0x21, 0x23⟩ ⟨0x80, 0x00, 0xFF, 0xB1, 0x23⟩ 0 0 1 1
      (by decide) (by decide) rfl (by decide) (by decide) (by decide) rfl (by decide)
      (by decide) rfl
  have hmode : mode = .POWER_SHUTDOWN_1K := by
    rw [← PowerMode.cast_toNat mode, hm]
    rfl
  have hvalue : value = 0x123 := by
    rw [hv]
    rfl
  subst hmode hvalue
  exact ⟨s', t', hs, ht⟩

/-- C2: for every 12-bit value `x` and every power mode `m`, once the device is ready
`writeEeprom(m, x)` sends three bytes that carry `m` in bits 2-1 of byte 0 and `x` as
`(byte1 << 4) | (byte2 >> 4)`; and when a ready answer holds that setting in the
EEPROM-read layout, byte 3 = `(m << 5) | (x >> 8)` and byte 4 = `x & 0xFF`, `readEeprom`
returns exactly the mode `m` and the value `x`. -/
theorem eeprom_roundtrip (s t : MCP4725) (m : PowerMode) (x k j fuel fuel' : Nat)
    (hx : x ≤ 4095)
    (hk : s.m_I2C.ReadyAfter k) (hf : k < fuel)
    (hj : t.m_I2C.ReadyAfter j) (hf' : j < fuel')
    (h3 : (t.m_I2C.rx (t.m_I2C.nread + j)).b3 = (m.toNat <<< 5) ||| (x >>> 8))
    (h4 : (t.m_I2C.rx (t.m_I2C.nread + j)).b4 = x &&& 0xFF) :
    ∃ (s' t' : MCP4725) (b0 b1 b2 : Nat),
      writeEeprom fuel s m x = some s' ∧
      s'.m_I2C.log =
        s.m_I2C.log ++ s.m_I2C.pollLog s.m_ADDR k ++ [Txn.write s.m_ADDR [b0, b1, b2]] ∧
      b0 < 256 ∧ b1 < 256 ∧ b2 < 256 ∧
      (b0 >>> 1) &&& 0x03 = m.toNat ∧
      (b1 <<< 4) ||| (b2 >>> 4) = x ∧
      readEeprom fuel' t = some ((m, x), t') := by
  have hmlt := m.toNat_lt
  obtain ⟨hc, hlt, _, hbits⟩ := eeprom_cmd_byte m
  have hb3 : (m.toNat <<< 5) ||| (x >>> 8) = m.toNat * 32 + x / 256 := by
    rw [shl_or_eq_add m.toNat (x >>> 8) 5 (by omega)]
    omega
  have hmode : (((m.toNat <<< 5) ||| (x >>> 8)) >>> 5) &&& 0x03 = m.toNat := by
    rw [hb3, and_3]
    omega
  have hval : (((((m.toNat <<< 5) ||| (x >>> 8)) <<< 8) &&& 0xFFF) ||| (x &&& 0xFF)) % 65536
      = x := by
    rw [(eeprom_value_decode _ (x &&& 0xFF) (by rw [and_0xFF]; omega)).2, hb3, and_0xFF]
    omega
  have hb0 : (((0x60 ||| (m.toNat <<< 1)) % 256) >>> 1) &&& 0x03 = m.toNat := by
    rw [hc]
    exact hbits
  have hb12 : (((x >>> 4) % 256) <<< 4) ||| (((x <<< 4) % 256) >>> 4) = x := by
    rw [shl_or_eq_add _ (((x <<< 4) % 256) >>> 4) 4 (by omega)]
    omega
  have ht := readEeprom_eq t j fuel' hj hf'
  rw [h3, h4, hmode, hval, PowerMode.cast_toNat] at ht
  exact ⟨_, _, (0x60 ||| (m.toNat <<< 1)) % 256, (x >>> 4) % 256, (x <<< 4) % 256,
    writeEeprom_eq s m x k fuel hk hf, rfl, by omega, by omega, by omega, hb0, hb12, ht⟩

/-- C2 at a concrete run: `writeEeprom(POWER_SHUTDOWN_1K, 0x123)` after two busy answers,
read back from a device whose EEPROM bytes are `21 23`. -/
theorem eeprom_roundtrip_witness :
    (0x123 ≤ 4095 ∧ slowDac.m_I2C.ReadyAfter 2 ∧ 2 < 3 ∧ readyDac.m_I2C.ReadyAfter 0 ∧ 0 < 1 ∧
      (readyDac.m_I2C.rx (readyDac.m_I2C.nread + 0)).b3
        = (PowerMode.POWER_SHUTDOWN_1K.toNat <<< 5) ||| (0x123 >>> 8) ∧
      (readyDac.m_I2C.rx (readyDac.m_I2C.nread + 0)).b4 = 0x123 &&& 0xFF) ∧
    ∃ (s' t' : MCP4725) (b0 b1 b2 : Nat),
      writeEeprom 3 slowDac .POWER_SHUTDOWN_1K 0x123 = some s' ∧
      s'.m_I2C.log =
        slowDac.m_I2C.log ++ slowDac.m_I2C.pollLog slowDac.m_ADDR 2 ++
          [Txn.write slowDac.m_ADDR [b0, b1, b2]] ∧
      b0 < 256 ∧ b1 < 256 ∧ b2 < 256 ∧
      (b0 >>> 1) &&& 0x03 = PowerMode.POWER_SHUTDOWN_1K.toNat ∧
      (b1 <<< 4) ||| (b2 >>> 4) = 0x123 ∧
      readEeprom 1 readyDac = some ((.POWER_SHUTDOWN_1K, 0x123), t') :=
  ⟨⟨by decide, by decide, by decide, by decide, by decide, by decide, by decide⟩,
    eeprom_roundtrip slowDac readyDac .POWER_SHUTDOWN_1K 0x123 2 0 3 1
      (by decide) (by decide) (by decide) (by decide) (by decide) (by decide) (by decide)⟩

end MCP4725

/-! ## Normalized write and read -/

namespace MCP4725

/-- The range limiting of `write` is the clamp to `[0, 1]`. -/
theorem clamp_eq (v : ℚ) : (if v < 0 then 0 else if v > 1 then 1 else v) = min (max v 0) 1 := by
  by_cases h0 : v < 0
  · rw [if_pos h0, max_eq_right (le_of_lt h0), min_eq_left (by norm_num)]
  · rw [if_neg h0, max_eq_left (not_lt.1 h0)]
    by_cases h1 : v > 1
    · rw [if_pos h1, min_eq_right (le_of_lt h1)]
    · rw [if_neg h1, min_eq_left (not_lt.1 h1)]

/-- On `[0, 4095]` the conversion to `unsigned short` is the floor and stays in range. -/
theorem toUShort_of_range (y : ℚ) (h0 : 0 ≤ y) (h1 : y ≤ 4095) :
    toUShort y = Int.toNat ⌊y⌋ ∧ Int.toNat ⌊y⌋ ≤ 4095 := by
  have hf0 : 0 ≤ ⌊y⌋ := Int.floor_nonneg.2 h0
  have hf1 : ⌊y⌋ ≤ 4095 := by
    have : ((⌊y⌋ : ℤ) : ℚ) ≤ 4095 := le_trans (Int.floor_le y) h1
    exact_mod_cast this
  have hle : Int.toNat ⌊y⌋ ≤ 4095 := by omega
  refine ⟨?_, hle⟩
  unfold toUShort
  rw [if_pos h0]
  exact Nat.mod_eq_of_lt (by omega)

/-- The value `write` caches. -/
theorem write_eq (s : MCP4725) (v : ℚ) :
    write s v = writeDac { s with m_DacValue := Int.toNat ⌊4095 * min (max v 0) 1⌋ } ∧
      Int.toNat ⌊4095 * min (max v 0) 1⌋ ≤ 4095 := by
  have hc0 : (0 : ℚ) ≤ min (max v 0) 1 := le_min (le_max_right v 0) (by norm_num)
  have hc1 : min (max v 0) 1 ≤ (1 : ℚ) := min_le_right _ _
  obtain ⟨h, hle⟩ := toUShort_of_range (4095 * min (max v 0) 1) (by linarith) (by linarith)
  refine ⟨?_, hle⟩
  unfold write
  simp only [clamp_eq]
  rw [mul_comm (min (max v 0) 1) 4095, h]

/-- The two bytes of a fast write of a 12-bit value are bytes, carry the mode in bits
5-4 of byte 0 with bits 7-6 clear, and carry the value. -/
theorem fastWrite_frame_decode (m : PowerMode) (n : Nat) (hn : n ≤ 4095) :
    ((m.toNat <<< 4) ||| (n >>> 8)) % 256 < 256 ∧ n % 256 < 256 ∧
      (((m.toNat <<< 4) ||| (n >>> 8)) % 256) >>> 4 = m.toNat ∧
      fastWriteValue (((m.toNat <<< 4) ||| (n >>> 8)) % 256) (n % 256) = n := by
  have hmlt := m.toNat_lt
  unfold fastWriteValue
  rw [and_0x0F, shl_or_eq_add m.toNat (n >>> 8) 4 (by omega),
    shl_or_eq_add _ (n % 256) 8 (by omega)]
  omega

/-- C5: for every input `v` of the normalized `write` (exact rational arithmetic), the
cached value and the 12-bit value on the wire are `floor(4095 * min(max(v, 0), 1))`:
0 for every `v < 0`, 4095 for every `v > 1`, and always within `[0, 4095]`. -/
theorem write_clamps (s : MCP4725) (v : ℚ) :
    (write s v).m_DacValue = Int.toNat ⌊4095 * min (max v 0) 1⌋ ∧
      (∃ b0 b1, (write s v).m_I2C.log = s.m_I2C.log ++ [Txn.write s.m_ADDR [b0, b1]] ∧
        b0 < 256 ∧ b1 < 256 ∧
        fastWriteValue b0 b1 = Int.toNat ⌊4095 * min (max v 0) 1⌋) ∧
      (v < 0 → (write s v).m_DacValue = 0) ∧
      (1 < v → (write s v).m_DacValue = 4095) ∧
      (write s v).m_DacValue ≤ 4095 := by
  obtain ⟨hw, hle⟩ := write_eq s v
  obtain ⟨hb0, hb1, _, hdec⟩ :=
    fastWrite_frame_decode s.m_PowerMode (Int.toNat ⌊4095 * min (max v 0) 1⌋) hle
  have hval : (write s v).m_DacValue = Int.toNat ⌊4095 * min (max v 0) 1⌋ := by
    rw [hw]
    rfl
  refine ⟨hval, ⟨_, _, by rw [hw, writeDac_eq], hb0, hb1, hdec⟩, ?_, ?_, by rw [hval]; exact hle⟩
  · intro h
    rw [hval, max_eq_right (le_of_lt h), min_eq_left (by norm_num)]
    norm_num
  · intro h
    rw [hval, max_eq_left (by linarith), min_eq_right (le_of_lt h)]
    norm_num
    rfl

/-- C5 at concrete inputs: `write(-1/2)` sends value 0, `write(3/2)` sends value 4095,
and `write(5497/8190)` sends `floor(2748.5) = 2748`. -/
theorem write_clamps_witness :
    (write readyDac (-1 / 2)).m_DacValue = 0 ∧
      (write readyDac (3 / 2)).m_DacValue = 4095 ∧
      (write readyDac (5497 / 8190)).m_DacValue = 2748 := by
  refine ⟨(write_clamps readyDac (-1 / 2)).2.2.1 (by norm_num),
    (write_clamps readyDac (3 / 2)).2.2.2.1 (by norm_num), ?_⟩
  rw [(write_clamps readyDac (5497 / 8190)).1]
  norm_num
  rfl

/-- The quantisation error of `floor(4095 v) / 4095`. -/
theorem quantisation_error (v : ℚ) (h0 : 0 ≤ v) :
    |((Int.toNat ⌊4095 * v⌋ : ℕ) : ℚ) / 4095 - v| ≤ 1 / 4095 := by
  have hf0 : 0 ≤ ⌊4095 * v⌋ := Int.floor_nonneg.2 (by linarith)
  have hcast : ((Int.toNat ⌊4095 * v⌋ : ℕ) : ℚ) = ((⌊4095 * v⌋ : ℤ) : ℚ) := by
    have hz : ((Int.toNat ⌊4095 * v⌋ : ℕ) : ℤ) = ⌊4095 * v⌋ := Int.toNat_of_nonneg hf0
    calc ((Int.toNat ⌊4095 * v⌋ : ℕ) : ℚ)
        = (((Int.toNat ⌊4095 * v⌋ : ℕ) : ℤ) : ℚ) := (Int.cast_natCast _).symm
      _ = ((⌊4095 * v⌋ : ℤ) : ℚ) := by rw [hz]
  have hlo : ((⌊4095 * v⌋ : ℤ) : ℚ) ≤ 4095 * v := Int.floor_le _
  have hhi : 4095 * v < ((⌊4095 * v⌋ : ℤ) : ℚ) + 1 := Int.lt_floor_add_one _
  rw [hcast, abs_le]
  constructor
  · rw [le_sub_iff_add_le, le_div_iff₀ (by norm_num : (0 : ℚ) < 4095)]
    linarith
  · rw [sub_le_iff_le_add, div_le_iff₀ (by norm_num : (0 : ℚ) < 4095)]
    linarith

/-- C6: for every `v` in `[0, 1]` (exact rational arithmetic), `write(v)` followed by
`read()`, the device answering the read with the 12-bit value of the frame just
written in the read-register layout (byte 1 = value >> 4, byte 2 = (value & 0x0F) << 4),
returns `r = floor(4095 v) / 4095`, and `|r - v| ≤ 1/4095`. -/
theorem write_read_roundtrip (s : MCP4725) (v : ℚ) (c0 c1 : Nat)
    (h0 : 0 ≤ v) (h1 : v ≤ 1)
    (hlast : (write s v).m_I2C.log.getLast? = some (Txn.write s.m_ADDR [c0, c1]))
    (hb1 : ((write s v).m_I2C.rx (write s v).m_I2C.nread).b1 = fastWriteValue c0 c1 >>> 4)
    (hb2 : ((write s v).m_I2C.rx (write s v).m_I2C.nread).b2
      = (fastWriteValue c0 c1 &&& 0x0F) <<< 4) :
    (read (write s v)).1 = ((Int.toNat ⌊4095 * v⌋ : ℕ) : ℚ) / 4095 ∧
      |(read (write s v)).1 - v| ≤ 1 / 4095 := by
  obtain ⟨hw, hle⟩ := write_eq s v
  rw [max_eq_left h0, min_eq_left h1] at hw hle
  obtain ⟨_, _, _, hdec⟩ := fastWrite_frame_decode s.m_PowerMode (Int.toNat ⌊4095 * v⌋) hle
  have hframe : fastWriteValue c0 c1 = Int.toNat ⌊4095 * v⌋ := by
    rw [hw, writeDac_eq] at hlast
    rw [List.getLast?_concat] at hlast
    simp only [Option.some.injEq, Txn.write.injEq, List.cons.injEq, true_and, and_true]
      at hlast
    rw [← hlast.1, ← hlast.2]
    exact hdec
  have hread : (read (write s v)).1 = ((Int.toNat ⌊4095 * v⌋ : ℕ) : ℚ) / 4095 := by
    show (((readDac (write s v)).m_DacValue : ℕ) : ℚ) / 4095 = _
    rw [readDac_eq]
    simp only [hb1, hb2, hframe, and_0x0F]
    rw [shl_or_eq_add _ (((Int.toNat ⌊4095 * v⌋ % 16) <<< 4) >>> 4) 4 (by omega)]
    congr 2
    omega
  exact ⟨hread, by rw [hread]; exact quantisation_error v h0⟩

/-- C6 at a concrete run: `write(5497/8190)` caches `floor(2748.5) = 2748 = 0xABC` and
sends `2A BC`; the device reports `0xABC` back and `read()` returns `2748/4095`. -/
theorem write_read_roundtrip_witness :
    ((0 : ℚ) ≤ 5497 / 8190 ∧ (5497 / 8190 : ℚ) ≤ 1 ∧
      (write readyDac (5497 / 8190)).m_I2C.log.getLast?
        = some (Txn.write readyDac.m_ADDR [0x2A, 0xBC]) ∧
      fastWriteValue 0x2A 0xBC = 0xABC) ∧
    (read (write readyDac (5497 / 8190))).1 = 2748 / 4095 ∧
    |(read (write readyDac (5497 / 8190))).1 - 5497 / 8190| ≤ 1 / 4095 := by
  have hn : Int.toNat ⌊(4095 : ℚ) * min (max (5497 / 8190) 0) 1⌋ = 2748 := by
    norm_num
    rfl
  have hw : write readyDac (5497 / 8190) = writeDac { readyDac with m_DacValue := 2748 } := by
    rw [(write_eq readyDac (5497 / 8190)).1, hn]
  have hlast : (write readyDac (5497 / 8190)).m_I2C.log.getLast?
      = some (Txn.write readyDac.m_ADDR [0x2A, 0xBC]) := by
    rw [hw]
    decide
  have h := write_read_roundtrip readyDac (5497 / 8190) 0x2A 0xBC (by norm_num) (by norm_num)
    hlast (by rw [hw]; decide) (by rw [hw]; decide)
  have hfl : Int.toNat ⌊(4095 : ℚ) * (5497 / 8190)⌋ = 2748 := by
    norm_num
    rfl
  refine ⟨⟨by norm_num, by norm_num, hlast, by decide⟩, ?_, h.2⟩
  rw [h.1, hfl]
  norm_num

end MCP4725

/-! ## Register read: position of the mode bits -/

namespace MCP4725

/-- C11, the claim at the answer `C2 80 00 20 00`: `readDac` (and with it `powerMode()`)
decodes mode 1, `POWER_SHUTDOWN_1K`, from bits 2-1 of byte 0, whereas bits 6-5 of that
byte, `(b[0] >> 5) & 0x03`, are 2. -/
theorem readDac_mode_differs_from_bits_6_5 :
    (readDac shutdownDac).m_PowerMode = .POWER_SHUTDOWN_1K ∧
      (powerMode shutdownDac).1 = .POWER_SHUTDOWN_1K ∧
      ((shutdownDac.m_I2C.rx shutdownDac.m_I2C.nread).b0 >>> 5) &&& 0x03 = 2 ∧
      (readDac shutdownDac).m_PowerMode.toNat
        ≠ ((shutdownDac.m_I2C.rx shutdownDac.m_I2C.nread).b0 >>> 5) &&& 0x03 := by
  decide

/-- C11 as amended: for every 5-byte answer, the mode the volatile-register read
decodes, as cached by `readDac` and `read()` and returned by `powerMode()`, is bits 2-1
of byte 0, `(b[0] >> 1) & 0x03`. -/
theorem readDac_mode_bits_2_1 (s : MCP4725) :
    (readDac s).m_PowerMode.toNat = ((s.m_I2C.rx s.m_I2C.nread).b0 >>> 1) &&& 0x03 ∧
      (powerMode s).1.toNat = ((s.m_I2C.rx s.m_I2C.nread).b0 >>> 1) &&& 0x03 ∧
      (read s).2.m_PowerMode.toNat = ((s.m_I2C.rx s.m_I2C.nread).b0 >>> 1) &&& 0x03 := by
  have h : (readDac s).m_PowerMode.toNat
      = ((s.m_I2C.rx s.m_I2C.nread).b0 >>> 1) &&& 0x03 := by
    rw [readDac_eq]
    exact PowerMode.toNat_cast _ (by rw [and_3]; omega)
  exact ⟨h, h, h⟩

end MCP4725

/-! ## Frames and frame conditions of the volatile operations -/

namespace MCP4725

/-- The two bytes of a fast write of a 12-bit value need no reduction to fit a `char`:
byte 0 is below 64 and byte 1 is the value's low 8 bits. -/
theorem fastWrite_bytes (m : PowerMode) (n : Nat) (hn : n ≤ 4095) :
    ((m.toNat <<< 4) ||| (n >>> 8)) % 256 = (m.toNat <<< 4) ||| (n >>> 8) ∧
      n % 256 = n &&& 0xFF ∧
      (m.toNat <<< 4) ||| (n >>> 8) < 64 ∧
      ((m.toNat <<< 4) ||| (n >>> 8)) >>> 6 = 0 ∧
      (((m.toNat <<< 4) ||| (n >>> 8)) >>> 4) &&& 0x03 = m.toNat := by
  have hmlt := m.toNat_lt
  rw [and_0xFF, and_3, shl_or_eq_add m.toNat (n >>> 8) 4 (by omega)]
  omega

/-- C12: for every driver state and every input `v`, `write(v)` logs exactly one write,
of the two bytes `[(m << 4) | (n >> 8), n & 0xFF]`, to the configured address, where `m`
is the cached power mode and `n` the new cached value, and leaves the cached power mode
(and the address and the read cursor) unchanged. -/
theorem write_frame (s : MCP4725) (v : ℚ) :
    (write s v).m_I2C.log =
        s.m_I2C.log ++
          [Txn.write s.m_ADDR
            [(s.m_PowerMode.toNat <<< 4) ||| ((write s v).m_DacValue >>> 8),
             (write s v).m_DacValue &&& 0xFF]] ∧
      (s.m_PowerMode.toNat <<< 4) ||| ((write s v).m_DacValue >>> 8) < 256 ∧
      (write s v).m_DacValue &&& 0xFF < 256 ∧
      (write s v).m_PowerMode = s.m_PowerMode ∧
      (write s v).m_ADDR = s.m_ADDR ∧
      (write s v).m_I2C.nread = s.m_I2C.nread := by
  obtain ⟨hw, hle⟩ := write_eq s v
  obtain ⟨h0, h1, h64, _, _⟩ :=
    fastWrite_bytes s.m_PowerMode (Int.toNat ⌊4095 * min (max v 0) 1⌋) hle
  rw [hw, writeDac_eq]
  simp only [h0, h1]
  refine ⟨trivial, by omega, ?_, trivial, trivial, trivial⟩
  rw [and_0xFF]
  omega

/-- C13: for every driver state whose cached value `d` is in `[0, 4095]` and every power
mode `m'`, `powerMode(m')` caches `m'`, keeps `d`, and logs exactly one write, of the two
bytes `[(m' << 4) | (d >> 8), d & 0xFF]`, to the configured address; the value that
frame carries is `d`. -/
theorem powerModeSet_frame (s : MCP4725) (m' : PowerMode) (hd : s.m_DacValue ≤ 4095) :
    (powerModeSet s m').m_PowerMode = m' ∧
      (powerModeSet s m').m_DacValue = s.m_DacValue ∧
      (powerModeSet s m').m_I2C.log =
        s.m_I2C.log ++
          [Txn.write s.m_ADDR
            [(m'.toNat <<< 4) ||| (s.m_DacValue >>> 8), s.m_DacValue &&& 0xFF]] ∧
      fastWriteValue ((m'.toNat <<< 4) ||| (s.m_DacValue >>> 8)) (s.m_DacValue &&& 0xFF)
        = s.m_DacValue ∧
      (powerModeSet s m').m_ADDR = s.m_ADDR := by
  obtain ⟨h0, h1, _, _, _⟩ := fastWrite_bytes m' s.m_DacValue hd
  obtain ⟨_, _, _, hdec⟩ := fastWrite_frame_decode m' s.m_DacValue hd
  rw [h0, h1] at hdec
  refine ⟨rfl, rfl, ?_, hdec, rfl⟩
  show (writeDac { s with m_PowerMode := m' }).m_I2C.log = _
  rw [writeDac_eq]
  simp only [h0, h1]

/-- C13 at a concrete state: with `0xABC` cached, `powerMode(POWER_SHUTDOWN_500K)` sends
`3A BC` to `ADDRESS_0`. -/
theorem powerModeSet_frame_witness :
    readyDac.m_DacValue ≤ 4095 ∧
      (powerModeSet readyDac .POWER_SHUTDOWN_500K).m_PowerMode = .POWER_SHUTDOWN_500K ∧
      (powerModeSet readyDac .POWER_SHUTDOWN_500K).m_DacValue = 0xABC ∧
      (powerModeSet readyDac .POWER_SHUTDOWN_500K).m_I2C.log = [Txn.write 0xC0 [0x3A, 0xBC]] := by
  obtain ⟨hm, hv, hlog, _, _⟩ := powerModeSet_frame readyDac .POWER_SHUTDOWN_500K (by decide)
  refine ⟨by decide, hm, by rw [hv]; decide, by rw [hlog]; decide⟩

/-- C14: for each of the 8 `Address` values as configured address and every driver
state, `reset()` logs exactly one write, of the single byte `0x06`, to address `0x00`,
and `wakeup()` exactly one write, of the single byte `0x09`, to address `0x00`; address
`0x00` is not the configured address, and the cached mode and value stay as they were. -/
theorem general_call_targets (s : MCP4725) (addr : Address) (ha : s.m_ADDR = addr.toNat) :
    (reset s).m_I2C.log = s.m_I2C.log ++ [Txn.write 0x00 [0x06]] ∧
      (wakeup s).m_I2C.log = s.m_I2C.log ++ [Txn.write 0x00 [0x09]] ∧
      s.m_ADDR ≠ 0x00 ∧
      (reset s).m_PowerMode = s.m_PowerMode ∧ (reset s).m_DacValue = s.m_DacValue ∧
      (wakeup s).m_PowerMode = s.m_PowerMode ∧ (wakeup s).m_DacValue = s.m_DacValue ∧
      (reset s).m_ADDR = s.m_ADDR ∧ (wakeup s).m_ADDR = s.m_ADDR ∧
      (reset s).m_I2C.nread = s.m_I2C.nread ∧ (wakeup s).m_I2C.nread = s.m_I2C.nread := by
  refine ⟨rfl, rfl, ?_, rfl, rfl, rfl, rfl, rfl, rfl, rfl, rfl⟩
  rw [ha]
  cases addr <;> decide

/-- C14 at a concrete state: a driver at `ADDRESS_3` (`0xC6`) sends both commands to `0x00`. -/
theorem general_call_targets_witness :
    shutdownDac.m_ADDR = Address.ADDRESS_3.toNat ∧
      (reset shutdownDac).m_I2C.log = [Txn.write 0x00 [0x06]] ∧
      (wakeup shutdownDac).m_I2C.log = [Txn.write 0x00 [0x09]] ∧
      (wakeup (reset shutdownDac)).m_I2C.log = [Txn.write 0x00 [0x06], Txn.write 0x00 [0x09]] ∧
      shutdownDac.m_ADDR = 0xC6 := by
  obtain ⟨hr, hw, _⟩ := general_call_targets shutdownDac .ADDRESS_3 rfl
  obtain ⟨_, hw2, _⟩ := general_call_targets (reset shutdownDac) .ADDRESS_3 rfl
  refine ⟨rfl, by rw [hr]; decide, by rw [hw]; decide, ?_, by decide⟩
  rw [hw2, hr]
  decide

/-- C15: for every 5-byte answer with bytes in 0..255, `read()` returns the decoded
12-bit magnitude `(b[1] << 4) | (b[2] >> 4)` divided by 4095 (exact rational
arithmetic); the result lies in `[0, 1]` and is 1 exactly when the magnitude is 4095. -/
theorem read_normalized (s : MCP4725) (b : Buf5)
    (hb : s.m_I2C.rx s.m_I2C.nread = b) (hbytes : b.IsBytes) :
    (read s).1 = (((b.b1 <<< 4) ||| (b.b2 >>> 4) : ℕ) : ℚ) / 4095 ∧
      (read s).2.m_DacValue = (b.b1 <<< 4) ||| (b.b2 >>> 4) ∧
      0 ≤ (read s).1 ∧ (read s).1 ≤ 1 ∧
      ((read s).1 = 1 ↔ (b.b1 <<< 4) ||| (b.b2 >>> 4) = 4095) ∧
      (read s).2.m_I2C.log =
        s.m_I2C.log ++ [Txn.read s.m_ADDR [b.b0, b.b1, b.b2, b.b3, b.b4]] := by
  obtain ⟨_, h1, h2, _, _⟩ := hbytes
  obtain ⟨_, hle⟩ := dac_value_decode b.b1 b.b2 h1 h2
  have hval : (readDac s).m_DacValue = (b.b1 <<< 4) ||| (b.b2 >>> 4) := by
    rw [readDac_eq, hb]
    exact Nat.mod_eq_of_lt (by omega)
  have hr : (read s).1 = (((b.b1 <<< 4) ||| (b.b2 >>> 4) : ℕ) : ℚ) / 4095 := by
    show (((readDac s).m_DacValue : ℕ) : ℚ) / 4095 = _
    rw [hval]
  have hq : ((((b.b1 <<< 4) ||| (b.b2 >>> 4) : ℕ)) : ℚ) ≤ 4095 := by exact_mod_cast hle
  have hq0 : (0 : ℚ) ≤ (((b.b1 <<< 4) ||| (b.b2 >>> 4) : ℕ) : ℚ) := Nat.cast_nonneg _
  refine ⟨hr, hval, ?_, ?_, ?_, ?_⟩
  · rw [hr]
    exact div_nonneg hq0 (by norm_num)
  · rw [hr, div_le_one (by norm_num : (0 : ℚ) < 4095)]
    exact hq
  · rw [hr, div_eq_one_iff_eq (by norm_num : (4095 : ℚ) ≠ 0)]
    exact_mod_cast Iff.rfl
  · show (readDac s).m_I2C.log = _
    rw [readDac_eq, hb]
    rfl

/-- C15 at a concrete state: the answer `C4 AB C0 21 23` reads as `2748 / 4095`. -/
theorem read_normalized_witness :
    (readyDac.m_I2C.rx readyDac.m_I2C.nread = ⟨0xC4, 0xAB, 0xC0, 0x21, 0x23⟩ ∧
      Buf5.IsBytes ⟨0xC4, 0xAB, 0xC0, 0x21, 0x23⟩) ∧
    (read readyDac).1 = 2748 / 4095 ∧
    (read readyDac).2.m_DacValue = 0xABC := by
  obtain ⟨hr, hv, _⟩ :=
    read_normalized readyDac ⟨0xC4, 0xAB, 0xC0, 0x21, 0x23⟩ rfl (by decide)
  refine ⟨⟨rfl, by decide⟩, ?_, by rw [hv]; decide⟩
  rw [hr]
  have : ((0xAB : ℕ) <<< 4) ||| ((0xC0 : ℕ) >>> 4) = 2748 := by decide
  rw [this]
  norm_num

/-- C16: `open()` logs exactly one write, of no data bytes, to the configured address,
and returns `true` if and only if that write returns 0 (acknowledged); when the write
returns a non-zero status it returns `false`. The cached mode and value, the address
and the read cursor stay as they were. -/
theorem open_probe (s : MCP4725) :
    ((«open» s).1 = true ↔ s.m_I2C.wret s.m_ADDR [] = 0) ∧
      (s.m_I2C.wret s.m_ADDR [] ≠ 0 → («open» s).1 = false) ∧
      («open» s).2.m_I2C.log = s.m_I2C.log ++ [Txn.write s.m_ADDR []] ∧
      («open» s).2.m_PowerMode = s.m_PowerMode ∧
      («open» s).2.m_DacValue = s.m_DacValue ∧
      («open» s).2.m_ADDR = s.m_ADDR ∧
      («open» s).2.m_I2C.nread = s.m_I2C.nread := by
  unfold «open»
  by_cases h : s.m_I2C.wret s.m_ADDR [] = 0
  · simp [I2C.write, h]
  · simp [I2C.write, h]

/-- C16 at concrete states: the probe succeeds on a bus that acknowledges and fails on
one that does not; each logs one empty write to the driver's address. -/
theorem open_probe_witness :
    («open» readyDac).1 = true ∧ («open» shutdownDac).1 = false ∧
      («open» readyDac).2.m_I2C.log = [Txn.write 0xC0 []] ∧
      («open» shutdownDac).2.m_I2C.log = [Txn.write 0xC6 []] := by
  refine ⟨(open_probe readyDac).1.2 (by decide), (open_probe shutdownDac).2.1 (by decide),
    ?_, ?_⟩
  · rw [(open_probe readyDac).2.2.1]
    decide
  · rw [(open_probe shutdownDac).2.2.1]
    decide

end MCP4725

/-! ## Termination of the busy-wait -/

namespace MCP4725

/-- When some answer from the read cursor on is ready, there is a first one. -/
theorem exists_readyAfter (bus : I2C)
    (h : ∃ i, (bus.rx (bus.nread + i)).b0 &&& 0x80 ≠ 0) : ∃ k, bus.ReadyAfter k := by
  classical
  refine ⟨Nat.find h, fun i hi => ?_, Nat.find_spec h⟩
  have hmin := Nat.find_min h hi
  exact not_not.1 hmin

/-- With fuel for at most `k` polls the loop does not reach the first ready answer. -/
theorem pollReady_none_of_le (address : Nat) (bus : I2C) (k fuel : Nat)
    (hk : bus.ReadyAfter k) (hf : fuel ≤ k) : pollReady address fuel bus = none :=
  pollReady_none_of_busy address fuel bus fun i hi => hk.1 i (Nat.lt_of_lt_of_le hi hf)

theorem pollLog_length (bus : I2C) (address k : Nat) :
    (bus.pollLog address k).length = k + 1 := by
  unfold I2C.pollLog
  rw [List.length_map, List.length_range]

/-- C17: with the device's answers from the read cursor on as the sequence
`r_0, r_1, ...`, the busy-wait of `readEeprom` and of `writeEeprom` ends (for some
amount of fuel) if and only if some `r_i` has bit 7 of byte 0 set; and when `k` is the
least such index, no run with fuel for at most `k` polls ends, while every run with more
fuel ends having made exactly `k + 1` reads, `readEeprom` returning the mode and value
decoded from `r_k`. -/
theorem eeprom_poll_termination (s : MCP4725) (m : PowerMode) (v : Nat) :
    ((∃ fuel out, readEeprom fuel s = some out) ↔
        ∃ i, (s.m_I2C.rx (s.m_I2C.nread + i)).b0 &&& 0x80 ≠ 0) ∧
      ((∃ fuel s', writeEeprom fuel s m v = some s') ↔
        ∃ i, (s.m_I2C.rx (s.m_I2C.nread + i)).b0 &&& 0x80 ≠ 0) ∧
      ∀ k, s.m_I2C.ReadyAfter k →
        (s.m_I2C.pollLog s.m_ADDR k).length = k + 1 ∧
        ∀ fuel,
          (fuel ≤ k → readEeprom fuel s = none ∧ writeEeprom fuel s m v = none) ∧
          (k < fuel →
            ∃ s' t',
              readEeprom fuel s =
                some ((PowerMode.cast (((s.m_I2C.rx (s.m_I2C.nread + k)).b3 >>> 5) &&& 0x03),
                       ((((s.m_I2C.rx (s.m_I2C.nread + k)).b3 <<< 8) &&& 0xFFF) |||
                         (s.m_I2C.rx (s.m_I2C.nread + k)).b4) % 65536), s') ∧
              s'.m_I2C.nread = s.m_I2C.nread + (k + 1) ∧
              s'.m_I2C.log = s.m_I2C.log ++ s.m_I2C.pollLog s.m_ADDR k ∧
              writeEeprom fuel s m v = some t' ∧
              t'.m_I2C.nread = s.m_I2C.nread + (k + 1) ∧
              ∃ frame, t'.m_I2C.log =
                s.m_I2C.log ++ s.m_I2C.pollLog s.m_ADDR k ++ [Txn.write s.m_ADDR frame]) := by
  refine ⟨⟨?_, ?_⟩, ⟨?_, ?_⟩, ?_⟩
  · rintro ⟨fuel, out, h⟩
    obtain ⟨k, _, hk⟩ := readyAfter_of_readEeprom s out fuel h
    exact ⟨k, hk.2⟩
  · intro h
    obtain ⟨k, hk⟩ := exists_readyAfter s.m_I2C h
    exact ⟨k + 1, _, readEeprom_eq s k (k + 1) hk (by omega)⟩
  · rintro ⟨fuel, s', h⟩
    obtain ⟨k, _, hk⟩ := readyAfter_of_writeEeprom s s' m v fuel h
    exact ⟨k, hk.2⟩
  · intro h
    obtain ⟨k, hk⟩ := exists_readyAfter s.m_I2C h
    exact ⟨k + 1, _, writeEeprom_eq s m v k (k + 1) hk (by omega)⟩
  · intro k hk
    refine ⟨pollLog_length s.m_I2C s.m_ADDR k, fun fuel => ⟨fun hf => ?_, fun hf => ?_⟩⟩
    · unfold readEeprom writeEeprom
      rw [pollReady_none_of_le s.m_ADDR s.m_I2C k fuel hk hf]
      exact ⟨rfl, rfl⟩
    · exact ⟨_, _, readEeprom_eq s k fuel hk hf, rfl, rfl, writeEeprom_eq s m v k fuel hk hf,
        rfl, _, rfl⟩

/-- C17 at a concrete device, busy twice and then ready: runs with fuel 1 and 2 do not
end, a run with fuel 3 ends after exactly 3 reads and returns the content of the third
answer. -/
theorem eeprom_poll_termination_witness :
    slowDac.m_I2C.ReadyAfter 2 ∧
      readEeprom 2 slowDac = none ∧
      writeEeprom 2 slowDac .POWER_NORMAL 0x800 = none ∧
      (∃ s', readEeprom 3 slowDac = some ((.POWER_SHUTDOWN_1K, 0x123), s') ∧
        s'.m_I2C.nread = 3 ∧ s'.m_I2C.log.length = 3) ∧
      (∃ fuel out, readEeprom fuel slowDac = some out) := by
  have h := eeprom_poll_termination slowDac .POWER_NORMAL 0x800
  have hk : slowDac.m_I2C.ReadyAfter 2 := by decide
  obtain ⟨hlen, hrun⟩ := h.2.2 2 hk
  obtain ⟨s', _, hr, hn, hlog, _⟩ := (hrun 3).2 (by decide)
  refine ⟨hk, ((hrun 2).1 (by decide)).1, ((hrun 2).1 (by decide)).2, ⟨s', ?_, ?_, ?_⟩,
    h.1.2 ⟨2, hk.2⟩⟩
  · rw [hr]
    rfl
  · rw [hn]
    rfl
  · rw [hlog, List.length_append, hlen]
    rfl

end MCP4725

/-! ## The cached value stays a 12-bit value; EEPROM operations and the cache -/

namespace MCP4725

/-- What a returning `writeEeprom` leaves: the bus after the polls and the write, the
other members untouched. -/
theorem writeEeprom_some (s s' : MCP4725) (m : PowerMode) (v fuel : Nat)
    (h : writeEeprom fuel s m v = some s') :
    ∃ bus, s' = { m_I2C := bus, m_ADDR := s.m_ADDR, m_PowerMode := s.m_PowerMode,
                  m_DacValue := s.m_DacValue } := by
  obtain ⟨k, hf, hk⟩ := readyAfter_of_writeEeprom s s' m v fuel h
  rw [writeEeprom_eq s m v k fuel hk hf] at h
  exact ⟨_, (Option.some.inj h).symm⟩

/-- What a returning `readEeprom` leaves: the bus after the polls, the other members
untouched. -/
theorem readEeprom_some (s : MCP4725) (out : (PowerMode × Nat) × MCP4725) (fuel : Nat)
    (h : readEeprom fuel s = some out) :
    ∃ bus, out.2 = { m_I2C := bus, m_ADDR := s.m_ADDR, m_PowerMode := s.m_PowerMode,
                     m_DacValue := s.m_DacValue } := by
  obtain ⟨k, hf, hk⟩ := readyAfter_of_readEeprom s out fuel h
  rw [readEeprom_eq s k fuel hk hf] at h
  exact ⟨_, (congrArg Prod.snd (Option.some.inj h)).symm⟩

/-- The driver `open` leaves: only the bus has moved. -/
theorem open_snd (s : MCP4725) :
    («open» s).2 =
      { m_I2C := (s.m_I2C.write s.m_ADDR []).2, m_ADDR := s.m_ADDR,
        m_PowerMode := s.m_PowerMode, m_DacValue := s.m_DacValue } := by
  unfold «open»
  by_cases h : (s.m_I2C.write s.m_ADDR []).1 = 0
  · simp only [h, if_true]
  · simp only [h, if_false]

/-- C18: from a state whose cached output value is at most 4095, and for a next device
answer with bytes in 0..255, each of `open`, `reset`, `wakeup`, `powerMode()`,
`powerMode(mode)`, `read`, `write(float)`, `readEeprom` and `writeEeprom` leaves a
cached output value of at most 4095; and the fast-write frames sent from such a state,
by `write(float)` and by `powerMode(mode)`, have bits 7-6 of byte 0 equal to 00 and
bits 5-4 equal to the cached power mode. -/
theorem dacValue_le_4095_preserved (s : MCP4725) (v : ℚ) (m' m : PowerMode) (x fuel : Nat)
    (hinv : s.m_DacValue ≤ 4095) (hbytes : (s.m_I2C.rx s.m_I2C.nread).IsBytes) :
    («open» s).2.m_DacValue ≤ 4095 ∧
      (reset s).m_DacValue ≤ 4095 ∧
      (wakeup s).m_DacValue ≤ 4095 ∧
      (powerMode s).2.m_DacValue ≤ 4095 ∧
      (powerModeSet s m').m_DacValue ≤ 4095 ∧
      (read s).2.m_DacValue ≤ 4095 ∧
      (write s v).m_DacValue ≤ 4095 ∧
      (∀ out, readEeprom fuel s = some out → out.2.m_DacValue ≤ 4095) ∧
      (∀ s', writeEeprom fuel s m x = some s' → s'.m_DacValue ≤ 4095) ∧
      (∃ b0 b1, (write s v).m_I2C.log = s.m_I2C.log ++ [Txn.write s.m_ADDR [b0, b1]] ∧
        b0 < 256 ∧ b0 >>> 6 = 0 ∧ (b0 >>> 4) &&& 0x03 = (write s v).m_PowerMode.toNat) ∧
      (∃ b0 b1, (powerModeSet s m').m_I2C.log = s.m_I2C.log ++ [Txn.write s.m_ADDR [b0, b1]] ∧
        b0 < 256 ∧ b0 >>> 6 = 0 ∧
        (b0 >>> 4) &&& 0x03 = (powerModeSet s m').m_PowerMode.toNat) := by
  obtain ⟨_, h1, h2, _, _⟩ := hbytes
  obtain ⟨_, hdec⟩ := dac_value_decode _ _ h1 h2
  have hread : (readDac s).m_DacValue ≤ 4095 := by
    rw [readDac_eq]
    exact le_trans (Nat.mod_le _ _) hdec
  obtain ⟨hw, hle⟩ := write_eq s v
  obtain ⟨hw0, _, hw64, hw6, hw4⟩ :=
    fastWrite_bytes s.m_PowerMode (Int.toNat ⌊4095 * min (max v 0) 1⌋) hle
  obtain ⟨hp0, _, hp64, hp6, hp4⟩ := fastWrite_bytes m' s.m_DacValue hinv
  have hopen : («open» s).2.m_DacValue = s.m_DacValue := by
    rw [open_snd]
  refine ⟨by rw [hopen]; exact hinv, hinv, hinv, hread, hinv, hread, by rw [hw]; exact hle,
    ?_, ?_, ?_, ?_⟩
  · intro out h
    obtain ⟨bus, hout⟩ := readEeprom_some s out fuel h
    rw [hout]
    exact hinv
  · intro s' h
    obtain ⟨bus, hs'⟩ := writeEeprom_some s s' m x fuel h
    rw [hs']
    exact hinv
  · refine ⟨_, _, by rw [hw, writeDac_eq], Nat.mod_lt _ (by norm_num), ?_, ?_⟩
    · rw [hw0]
      exact hw6
    · rw [hw0, hw]
      exact hw4
  · refine ⟨_, _, by unfold powerModeSet; rw [writeDac_eq], Nat.mod_lt _ (by norm_num), ?_, ?_⟩
    · rw [hp0]
      exact hp6
    · rw [hp0]
      exact hp4

/-- C18 at a concrete state: from the cached value `0xABC` the register read caches
`0xABC` again, `write(3/2)` caches 4095, and `powerMode(POWER_SHUTDOWN_500K)` sends a
frame whose byte 0 is `0x3A`: bits 7-6 are 00 and bits 5-4 are 11. -/
theorem dacValue_le_4095_preserved_witness :
    (readyDac.m_DacValue ≤ 4095 ∧ (readyDac.m_I2C.rx readyDac.m_I2C.nread).IsBytes) ∧
      (powerMode readyDac).2.m_DacValue ≤ 4095 ∧
      (write readyDac (3 / 2)).m_DacValue ≤ 4095 ∧
      (∀ s', writeEeprom 1 readyDac .POWER_NORMAL 0xFFFF = some s' → s'.m_DacValue ≤ 4095) ∧
      (powerModeSet readyDac .POWER_SHUTDOWN_500K).m_I2C.log = [Txn.write 0xC0 [0x3A, 0xBC]] ∧
      (0x3A >>> 6 = 0 ∧ (0x3A >>> 4) &&& 0x03 = PowerMode.POWER_SHUTDOWN_500K.toNat) := by
  have h := dacValue_le_4095_preserved readyDac (3 / 2) .POWER_SHUTDOWN_500K .POWER_NORMAL
    0xFFFF 1 (by decide) (by decide)
  exact ⟨⟨by decide, by decide⟩, h.2.2.2.1, h.2.2.2.2.2.2.1, h.2.2.2.2.2.2.2.2.1, by decide,
    by decide⟩

/-- C19: for every power mode `m` and every value `v`, `writeEeprom(m, v)` does what
`writeEeprom(m, v mod 4096)` does; once the device is ready it sends the three bytes
`[0x60 | (m << 1), (v mod 4096) >> 4, ((v mod 4096) << 4) & 0xF0]`, and for any other
value `w` byte 0 of the frame is the same `0x60 | (m << 1)`. -/
theorem writeEeprom_masks_value (s : MCP4725) (m : PowerMode) (v w k fuel : Nat)
    (hk : s.m_I2C.ReadyAfter k) (hf : k < fuel) :
    writeEeprom fuel s m v = writeEeprom fuel s m (v % 4096) ∧
      (∃ s', writeEeprom fuel s m v = some s' ∧
        s'.m_I2C.log =
          s.m_I2C.log ++ s.m_I2C.pollLog s.m_ADDR k ++
            [Txn.write s.m_ADDR
              [0x60 ||| (m.toNat <<< 1), (v % 4096) >>> 4, ((v % 4096) <<< 4) &&& 0xF0]]) ∧
      (∃ s'' c1 c2, writeEeprom fuel s m w = some s'' ∧
        s''.m_I2C.log =
          s.m_I2C.log ++ s.m_I2C.pollLog s.m_ADDR k ++
            [Txn.write s.m_ADDR [0x60 ||| (m.toNat <<< 1), c1, c2]]) := by
  obtain ⟨hc, _, _, _⟩ := eeprom_cmd_byte m
  have h1 : (v >>> 4) % 256 = (v % 4096) >>> 4 := by omega
  have h1' : ((v % 4096) >>> 4) % 256 = (v % 4096) >>> 4 := by omega
  have h2 : (v <<< 4) % 256 = ((v % 4096) <<< 4) % 256 := by omega
  have hv := writeEeprom_eq s m v k fuel hk hf
  have hv' := writeEeprom_eq s m (v % 4096) k fuel hk hf
  have hw := writeEeprom_eq s m w k fuel hk hf
  rw [hc, h1, h2, shl4_mod_256] at hv
  rw [hc, h1', shl4_mod_256] at hv'
  rw [hc] at hw
  exact ⟨by rw [hv, hv'], ⟨_, hv, rfl⟩, ⟨_, _, _, hw, rfl⟩⟩

/-- C19 at a concrete run: `writeEeprom(POWER_SHUTDOWN_1K, 0xF123)` sends `62 12 30`,
the frame of the value `0x123`. -/
theorem writeEeprom_masks_value_witness :
    (readyDac.m_I2C.ReadyAfter 0 ∧ 0 < 1) ∧
      0xF123 % 4096 = 0x123 ∧
      ((writeEeprom 1 readyDac .POWER_SHUTDOWN_1K 0xF123).map fun o => o.m_I2C.log) =
        some [Txn.read 0xC0 [0xC4, 0xAB, 0xC0, 0x21, 0x23], Txn.write 0xC0 [0x62, 0x12, 0x30]] ∧
      writeEeprom 1 readyDac .POWER_SHUTDOWN_1K 0xF123
        = writeEeprom 1 readyDac .POWER_SHUTDOWN_1K 0x123 := by
  obtain ⟨heq, ⟨s', hs', hlog⟩, _⟩ :=
    writeEeprom_masks_value readyDac .POWER_SHUTDOWN_1K 0xF123 0 0 1 (by decide) (by decide)
  refine ⟨⟨by decide, by decide⟩, by decide, ?_, heq⟩
  rw [hs', Option.map_some', hlog]
  decide

/-- C20: a returning `writeEeprom(m, x)` and a returning `readEeprom` leave the cached
power mode and the cached output value (and the address) as they were; so a fast write
issued after `writeEeprom(m, x)` is built from the cache of before the call: `write` and
`write_u12` send the previously cached mode, `powerMode(mode)` the previously cached
value, whatever `m` and `x` were. -/
theorem eeprom_ops_keep_cache (s s' t t' : MCP4725) (m mode m' : PowerMode)
    (x value w fuel fuel' : Nat) (v : ℚ)
    (hw : writeEeprom fuel s m x = some s')
    (hr : readEeprom fuel' t = some ((mode, value), t')) :
    (s'.m_PowerMode = s.m_PowerMode ∧ s'.m_DacValue = s.m_DacValue ∧ s'.m_ADDR = s.m_ADDR) ∧
      (t'.m_PowerMode = t.m_PowerMode ∧ t'.m_DacValue = t.m_DacValue ∧ t'.m_ADDR = t.m_ADDR) ∧
      (write s' v).m_I2C.log =
        s'.m_I2C.log ++
          [Txn.write s.m_ADDR
            [((s.m_PowerMode.toNat <<< 4) ||| ((write s' v).m_DacValue >>> 8)) % 256,
             (write s' v).m_DacValue % 256]] ∧
      (write_u12 s' w).m_I2C.log =
        s'.m_I2C.log ++
          [Txn.write s.m_ADDR
            [((s.m_PowerMode.toNat <<< 4) ||| ((w % 65536) >>> 8)) % 256, (w % 65536) % 256]] ∧
      (powerModeSet s' m').m_I2C.log =
        s'.m_I2C.log ++
          [Txn.write s.m_ADDR
            [((m'.toNat <<< 4) ||| (s.m_DacValue >>> 8)) % 256, s.m_DacValue % 256]] := by
  obtain ⟨bus, hs'⟩ := writeEeprom_some s s' m x fuel hw
  obtain ⟨bus', ht'⟩ := readEeprom_some t _ fuel' hr
  simp only at ht'
  subst hs' ht'
  refine ⟨⟨rfl, rfl, rfl⟩, ⟨rfl, rfl, rfl⟩, ?_, rfl, rfl⟩
  rw [(write_eq _ v).1, writeDac_eq]

/-- C20 at a concrete run: the driver caches `(POWER_NORMAL, 0)`; after
`writeEeprom(POWER_SHUTDOWN_500K, 0xFFF)` the cache is unchanged and
`powerMode(POWER_SHUTDOWN_1K)` sends `10 00`, the frame of value 0. -/
theorem eeprom_ops_keep_cache_witness :
    ∃ s' t',
      writeEeprom 3 slowDac .POWER_SHUTDOWN_500K 0xFFF = some s' ∧
      readEeprom 3 slowDac = some ((.POWER_SHUTDOWN_1K, 0x123), t') ∧
      s'.m_PowerMode = .POWER_NORMAL ∧ s'.m_DacValue = 0 ∧
      t'.m_PowerMode = .POWER_NORMAL ∧ t'.m_DacValue = 0 ∧
      (powerModeSet s' .POWER_SHUTDOWN_1K).m_I2C.log
        = s'.m_I2C.log ++ [Txn.write 0xC2 [0x10, 0x00]] := by
  have hw := writeEeprom_eq slowDac .POWER_SHUTDOWN_500K 0xFFF 2 3 (by decide) (by decide)
  have hr := readEeprom_eq slowDac 2 3 (by decide) (by decide)
  have hmode : PowerMode.cast
      (((slowDac.m_I2C.rx (slowDac.m_I2C.nread + 2)).b3 >>> 5) &&& 0x03)
        = .POWER_SHUTDOWN_1K := by decide
  have hval : ((((slowDac.m_I2C.rx (slowDac.m_I2C.nread + 2)).b3 <<< 8) &&& 0xFFF) |||
      (slowDac.m_I2C.rx (slowDac.m_I2C.nread + 2)).b4) % 65536 = 0x123 := by decide
  rw [hmode, hval] at hr
  obtain ⟨⟨h1, h2, _⟩, ⟨h3, h4, _⟩, _, _, h5⟩ :=
    eeprom_ops_keep_cache slowDac _ slowDac _ .POWER_SHUTDOWN_500K .POWER_SHUTDOWN_1K
      .POWER_SHUTDOWN_1K 0xFFF 0x123 0 3 3 0 hw hr
  exact ⟨_, _, hw, hr, h1, h2, h3, h4, h5⟩

end MCP4725
